import Mathlib

/-!
Verification development for the go-graphql repository.

The source tree contains several revisions of the library.  Each Go source
file is embedded in its own namespace:

* `GoGraphql.QP`      — query_parser.go  (hand written lexer/parser)
* `GoGraphql.Parse`   — parse.go         (schema construction / validation)
* `GoGraphql.Enum`    — the enum registration file (src/unnamed/part_000)
* `GoGraphql.Res`     — resolve.go       (tree-walking resolution engine)
* `GoGraphql.BC`      — bytecode_resolver.go

Go strings are iterated byte-wise by the source (`rune(i.data[nr])`); we
model the input as `List Char` whose elements stand for single bytes.  All
claims only exercise ASCII inputs, where the two views coincide.
-/

namespace GoGraphql

namespace QP

/-- Operator from query_parser.go: operation type ("query"/"mutation"/
"subscription") and the optional name ("" when absent). -/
structure Operator where
  operationType : String
  name : String
deriving DecidableEq, Repr

/-- Field from query_parser.go (only alias and name exist in this revision).
`alias` is a Lean keyword, hence `aliasName`. -/
structure Field where
  aliasName : String
  name : String
deriving DecidableEq, Repr

/-- isUnicodeBom: `input == '﻿'`.  Note the source compares one *byte*
converted to a rune against U+FEFF, so on real (byte) input this never
holds; the definition is kept as written. -/
def isUnicodeBom (c : Char) : Bool := c = '﻿'

/-- isWhiteSpace from query_parser.go. -/
def isWhiteSpace (c : Char) : Bool := c = ' ' || c = '\t'

/-- isLineTerminator: reads the character at the current position; for a
CR immediately followed by LF it advances one position (the source does
`i.charNr++`), so the returned suffix then starts at the LF. -/
def isLineTerminatorAt (cs : List Char) : Bool × List Char :=
  match cs with
  | '\n' :: rest => (true, '\n' :: rest)
  | '\r' :: rest =>
    match rest with
    | '\n' :: rest2 => (true, '\n' :: rest2)
    | _ => (true, '\r' :: rest)
  | other => (false, other)

/-- parseComment: consumes characters until eof or until the current
position is a line terminator (the terminator itself is not consumed,
except for the CR of a CRLF pair, consumed by `isLineTerminator`). -/
def parseComment (cs : List Char) : List Char :=
  match cs with
  | [] => []
  | c :: rest =>
    if (isLineTerminatorAt (c :: rest)).fst then (isLineTerminatorAt (c :: rest)).snd
    else parseComment rest

/-- isComment with parseComment=true: on '#' the whole comment is consumed. -/
def isCommentAt (cs : List Char) : Bool × List Char :=
  match cs with
  | '#' :: rest => (true, parseComment ('#' :: rest))
  | other => (false, other)

/-- isIgnoredToken: BOM / whitespace / line terminator / comment, with the
source's short-circuit order and side effects on the position. -/
def isIgnoredTokenAt (cs : List Char) : Bool × List Char :=
  match cs with
  | [] => (false, [])
  | c :: rest =>
    if isUnicodeBom c || isWhiteSpace c then (true, c :: rest)
    else
      let lt := isLineTerminatorAt (c :: rest)
      if lt.fst then (true, lt.snd)
      else isCommentAt (c :: rest)

/-- The `allowedChars` map of parseName: the bytes of
"abcdefghijklmnopqrstuvwxyz_" map to true (allowed as first char), the
bytes of "0123456789" map to false, anything else is absent. -/
def parseNameAllowed (c : Char) : Option Bool :=
  if ('a' ≤ c ∧ c ≤ 'z') ∨ c = '_' then some true
  else if '0' ≤ c ∧ c ≤ '9' then some false
  else none

/-- parseName from query_parser.go: accumulates `name`, stopping at eof, at
a character absent from `allowedChars`, or at a digit when the name is
still empty.  Returns the name and the remaining input. -/
def parseName (cs : List Char) (name : String) : String × List Char :=
  match cs with
  | [] => (name, [])
  | c :: rest =>
    match parseNameAllowed c with
    | none => (name, c :: rest)
    | some allowedAsFirstChar =>
      if name = "" ∧ ¬allowedAsFirstChar then (name, c :: rest)
      else parseName rest (name.push c)

/-- Inner per-key pass of `matches`: mirrors the `for key := range oneOfMap`
body, checking the delete condition first and then the
`keyLen == offset+1` return (which, as in the source, fires even when the
key was just deleted).  Go map iteration order is arbitrary; the model
iterates in list order.  Returns either the matched key or the surviving
candidates. -/
def matchesInner (c : Char) (offset : Nat) : List String → String ⊕ List String
  | [] => Sum.inr []
  | key :: rest =>
    let keyLen := key.length
    let deleted := offset ≥ keyLen ∨ key.data.getD offset ' ' ≠ c
    if keyLen = offset + 1 then Sum.inl key
    else
      match matchesInner c offset rest with
      | Sum.inl k => Sum.inl k
      | Sum.inr keep => Sum.inr (if deleted then keep else key :: keep)

/-- Outer loop of `matches`: on eof or no surviving candidate the position
is reset to the start and "" returned; on a match the position stays at the
key's final character. -/
def matchesLoop (cs : List Char) (keys : List String) (offset : Nat)
    (orig : List Char) : String × List Char :=
  match cs with
  | [] => ("", orig)
  | c :: rest =>
    match matchesInner c offset keys with
    | Sum.inl key => (key, c :: rest)
    | Sum.inr [] => ("", orig)
    | Sum.inr keep => matchesLoop rest keep (offset + 1) orig

/-- `matches` from query_parser.go (`matches` is a Lean keyword, hence the
name `matchesOneOf`). -/
def matchesOneOf (cs : List Char) (keys : List String) : String × List Char :=
  matchesLoop cs keys 0 cs

theorem isLineTerminatorAt_length (cs : List Char) :
    (isLineTerminatorAt cs).snd.length ≤ cs.length := by
  unfold isLineTerminatorAt
  split <;> (try split) <;> simp_all

theorem parseComment_length (cs : List Char) :
    (parseComment cs).length ≤ cs.length := by
  match cs with
  | [] => simp [parseComment]
  | c :: rest =>
    rw [parseComment]
    split
    · exact isLineTerminatorAt_length (c :: rest)
    · have := parseComment_length rest
      simp only [List.length_cons]
      omega

theorem isCommentAt_length (cs : List Char) :
    (isCommentAt cs).snd.length ≤ cs.length := by
  match cs with
  | [] => simp [isCommentAt]
  | c :: rest =>
    by_cases h : c = '#'
    · subst h
      simpa [isCommentAt] using parseComment_length ('#' :: rest)
    · simp only [isCommentAt]
      split <;> simp_all

theorem isIgnoredTokenAt_length (cs : List Char) :
    (isIgnoredTokenAt cs).snd.length ≤ cs.length := by
  match cs with
  | [] => simp [isIgnoredTokenAt]
  | c :: rest =>
    simp only [isIgnoredTokenAt]
    split
    · simp
    · split
      · exact isLineTerminatorAt_length (c :: rest)
      · exact isCommentAt_length (c :: rest)

theorem parseName_length (cs : List Char) (name : String) :
    (parseName cs name).snd.length ≤ cs.length := by
  match cs with
  | [] => simp [parseName]
  | c :: rest =>
    rw [parseName]
    match h : parseNameAllowed c with
    | none => simp
    | some b =>
      simp only
      split
      · simp
      · have := parseName_length rest (name.push c)
        simp only [List.length_cons]
        omega

theorem matchesLoop_length (cs : List Char) (keys : List String) (offset : Nat)
    (orig : List Char) :
    (matchesLoop cs keys offset orig).snd.length ≤ max cs.length orig.length := by
  match cs with
  | [] => simp [matchesLoop]
  | c :: rest =>
    rw [matchesLoop]
    match matchesInner c offset keys with
    | Sum.inl key => simp
    | Sum.inr [] => simp
    | Sum.inr (k :: keep) =>
      have := matchesLoop_length rest (k :: keep) (offset + 1) orig
      simp only [List.length_cons]
      omega

theorem matchesOneOf_length (cs : List Char) (keys : List String) :
    (matchesOneOf cs keys).snd.length ≤ cs.length := by
  have := matchesLoop_length cs keys 0 cs
  simpa [matchesOneOf] using this

/-- The waiting loop of parseField: skips ignored tokens, then looks for a
':' (which would mark `nameOrAlias` as an alias; this revision never fills
the field name).  Errors carry the source's message; the remaining input is
returned in both cases because the caller continues from the mutated
position. -/
def parseFieldLoop (cs : List Char) (nameOrAlias : String) :
    Except String Field × List Char :=
  match cs with
  | [] => (Except.error "unexpected EOF", [])
  | c :: rest =>
    let ign := isIgnoredTokenAt (c :: rest)
    if ign.fst then
      parseFieldLoop (ign.snd.drop 1) nameOrAlias
    else
      if c = ':' then (Except.ok { aliasName := nameOrAlias, name := "" }, c :: rest)
      else (Except.ok { aliasName := "", name := "" }, c :: rest)
termination_by cs.length
decreasing_by
  have h1 := isIgnoredTokenAt_length (c :: rest)
  simp only [List.length_drop]
  simp only [List.length_cons] at h1 ⊢
  omega

/-- parseField from query_parser.go. -/
def parseField (cs : List Char) : Except String Field × List Char :=
  if (parseName cs "").fst = "" then
    (Except.error "field should have a name", (parseName cs "").snd)
  else parseFieldLoop (parseName cs "").snd (parseName cs "").fst

theorem parseFieldLoop_length (cs : List Char) (nameOrAlias : String) :
    (parseFieldLoop cs nameOrAlias).snd.length ≤ cs.length := by
  match cs with
  | [] => simp [parseFieldLoop]
  | c :: rest =>
    rw [parseFieldLoop]
    split
    · have h1 := isIgnoredTokenAt_length (c :: rest)
      have h2 := parseFieldLoop_length ((isIgnoredTokenAt (c :: rest)).snd.drop 1) nameOrAlias
      simp only [List.length_drop] at h2
      simp only [List.length_cons] at h1 ⊢
      omega
    · split <;> simp
termination_by cs.length
decreasing_by
  have h1 := isIgnoredTokenAt_length (c :: rest)
  simp only [List.length_drop]
  simp only [List.length_cons] at h1 ⊢
  omega

theorem parseField_length (cs : List Char) :
    (parseField cs).snd.length ≤ cs.length := by
  unfold parseField
  split
  · exact parseName_length cs ""
  · exact le_trans (parseFieldLoop_length _ _) (parseName_length cs "")

/-- parseSelection from query_parser.go.  A "..." match yields an error
(fragments unimplemented in this revision); otherwise parseField is called
and — exactly as in the source — both its result and its error are
discarded, only the advanced position is kept. -/
def parseSelection (cs : List Char) : Except String Unit × List Char :=
  if (matchesOneOf cs ["..."]).fst.length > 0 then
    (Except.error "https://spec.graphql.org/June2018/#Selection",
      (matchesOneOf cs ["..."]).snd.drop 1)
  else (Except.ok (), (parseField (matchesOneOf cs ["..."]).snd).snd)

theorem parseSelection_length (cs : List Char) :
    (parseSelection cs).snd.length ≤ cs.length := by
  unfold parseSelection
  split
  · have := matchesOneOf_length cs ["..."]
    simp only [List.length_drop]
    omega
  · exact le_trans (parseField_length _) (matchesOneOf_length cs ["..."])

/-- parseSelectionSets from query_parser.go.  The second '\x7d' test after
parseSelection re-reads the stale character `c` and is therefore dead code
(that branch requires c ≠ '\x7d'); it is kept as written. -/
def parseSelectionSets (cs : List Char) : Except String Unit :=
  match cs with
  | [] => Except.error "unexpected EOF"
  | c :: rest =>
    let ign := isIgnoredTokenAt (c :: rest)
    if ign.fst then
      parseSelectionSets (ign.snd.drop 1)
    else if c = '\x7d' then Except.ok ()
    else
      let ps := parseSelection (c :: rest)
      match ps.fst with
      | Except.error e => Except.error e
      | Except.ok _ =>
        if c = '\x7d' then Except.ok ()
        else parseSelectionSets (ps.snd.drop 1)
termination_by cs.length
decreasing_by
  · have h1 := isIgnoredTokenAt_length (c :: rest)
    simp only [List.length_drop]
    simp only [List.length_cons] at h1 ⊢
    omega
  · have h1 := parseSelection_length (c :: rest)
    simp only [List.length_drop]
    simp only [List.length_cons] at h1 ⊢
    omega

/-- The stage machine of parseOperator: stages are the source's literal
strings.  Each bottom-of-loop `i.charNr++` is a `.drop 1`. -/
def parseOperatorLoop (cs : List Char) (stage : String) (res : Operator) :
    Except String Operator :=
  match cs with
  | [] =>
    if stage ≠ "operationType" then Except.error "unexpected EOF"
    else Except.ok res
  | c :: rest =>
    let ign := isIgnoredTokenAt (c :: rest)
    if ign.fst then
      parseOperatorLoop (ign.snd.drop 1) stage res
    else if stage = "operationType" then
      if c = '\x7b' then
        parseOperatorLoop rest "selectionSets" res
      else
        let m := matchesOneOf (c :: rest) ["query", "mutation", "subscription"]
        if m.fst.length > 0 then
          parseOperatorLoop (m.snd.drop 1) "name" { res with operationType := m.fst }
        else Except.error "unknown operation type"
    else if stage = "name" then
      if c = '(' then parseOperatorLoop rest "variableDefinitions" res
      else if c = '@' then parseOperatorLoop rest "directives" res
      else if c = '\x7b' then parseOperatorLoop rest "selectionSets" res
      else
        let pn := parseName (c :: rest) ""
        parseOperatorLoop (pn.snd.drop 1) "variableDefinitions" { res with name := pn.fst }
    else if stage = "variableDefinitions" then
      if c = '@' then parseOperatorLoop rest "directives" res
      else if c = '\x7b' then parseOperatorLoop rest "selectionSets" res
      else Except.error "https://spec.graphql.org/June2018/#VariableDefinitions"
    else if stage = "directives" then
      if c = '\x7b' then parseOperatorLoop rest "selectionSets" res
      else Except.error "https://spec.graphql.org/June2018/#sec-Language.Directives"
    else
      match parseSelectionSets (c :: rest) with
      | Except.error e => Except.error e
      | Except.ok _ => Except.ok res
termination_by cs.length
decreasing_by
  · have h1 := isIgnoredTokenAt_length (c :: rest)
    simp only [List.length_drop]
    simp only [List.length_cons] at h1 ⊢
    omega
  · simp
  · have h1 := matchesOneOf_length (c :: rest) ["query", "mutation", "subscription"]
    simp only [List.length_drop]
    simp only [List.length_cons] at h1 ⊢
    omega
  · simp
  · simp
  · simp
  · have h1 := parseName_length (c :: rest) ""
    simp only [List.length_drop]
    simp only [List.length_cons] at h1 ⊢
    omega
  · simp
  · simp
  · simp

/-- parseOperator from query_parser.go: initial result is operation type
"query" with empty name, initial stage "operationType". -/
def parseOperator (cs : List Char) : Except String Operator :=
  parseOperatorLoop cs "operationType" { operationType := "query", name := "" }

/-- ParseQuery from query_parser.go. -/
def ParseQuery (input : String) : Except String Operator :=
  parseOperator input.data

end QP

namespace Parse

/-- The byte-indexed loop of validGraphQlName (parse.go): A-Z and a-z are
accepted at every position, digits and '_' only at index i > 0. -/
def validGraphQlNameLoop : List Char → Nat → Except String Unit
  | [], _ => Except.ok ()
  | c :: rest, i =>
    if 'A' ≤ c ∧ c ≤ 'Z' then validGraphQlNameLoop rest (i + 1)
    else if 'a' ≤ c ∧ c ≤ 'z' then validGraphQlNameLoop rest (i + 1)
    else if 0 < i ∧ ('0' ≤ c ∧ c ≤ '9') then validGraphQlNameLoop rest (i + 1)
    else if 0 < i ∧ c = '_' then validGraphQlNameLoop rest (i + 1)
    else Except.error "invalid graphql name"

/-- validGraphQlName from parse.go. -/
def validGraphQlName (name : List Char) : Except String Unit :=
  if name.length = 0 then Except.error "invalid graphql name"
  else validGraphQlNameLoop name 0

/-- formatGoNameToQL from parse.go: names of length ≤ 1 are lowercased;
names whose second byte is already uppercase are kept; otherwise the first
byte is lowercased. -/
def formatGoNameToQL (input : String) : String :=
  if input.length ≤ 1 then input.toLower
  else if input.data.getD 1 ' ' = (input.data.getD 1 ' ').toUpper then input
  else String.mk ((input.data.getD 0 ' ').toLower :: input.data.drop 1)

/-- One return slot of a resolver as checkFunction classifies it: the
AttrIsID marker type, an interface type implementing error, or data. -/
inductive OutSlot where
  | attrIsID
  | errorOut
  | data
deriving DecidableEq, Repr

/-- The reflected shape of a resolver function type, as far as
checkFunction inspects it. -/
structure FuncType where
  isVariadic : Bool
  outs : List OutSlot
deriving DecidableEq, Repr

/-- The fields of the objMethod descriptor that checkFunction itself
fills in (outNr, errorOutNr, the promoted ID status, and the query-facing
name).  The registration of the out type through c.check and the deferred
checkFunctionIns pass are separate steps, not modelled here; they can only
add further build-time failures. -/
structure CheckedMethod where
  outNr : Nat
  errorOutNr : Option Nat
  isID : Bool
  qlName : String
deriving DecidableEq, Repr

/-- The output-classification loop of checkFunction: i counts the slot
index; a second error slot or a second data slot is a build error. -/
def checkFunctionOutsLoop (name : String) : List OutSlot → Nat → Option Nat →
    Option Nat → Bool → Except String (Option Nat × Option Nat × Bool)
  | [], _, outNr, errNr, isID => Except.ok (outNr, errNr, isID)
  | OutSlot.attrIsID :: rest, i, outNr, errNr, _ =>
    checkFunctionOutsLoop name rest (i + 1) outNr errNr true
  | OutSlot.errorOut :: rest, i, outNr, errNr, isID =>
    if errNr.isSome then Except.error (name ++ " cannot return multiple error types")
    else checkFunctionOutsLoop name rest (i + 1) outNr (some i) isID
  | OutSlot.data :: rest, i, outNr, errNr, isID =>
    if outNr.isSome then Except.error (name ++ " cannot return multiple types of data")
    else checkFunctionOutsLoop name rest (i + 1) (some i) errNr isID

/-- checkFunction from parse.go.  `Except.ok none` is the "ignored, not a
resolver" outcome (no error).  When isTypeMethod holds and the name is
exactly "Resolve", the source indexes trimmedName[0] out of range; this is
modelled as an error. -/
def checkFunction (name : String) (t : FuncType) (isTypeMethod : Bool)
    (hasIDTag : Bool) : Except String (Option CheckedMethod) :=
  let resolvePrefixed := name.startsWith "Resolve"
  if isTypeMethod ∧ ¬resolvePrefixed then Except.ok none
  else
    let trimmedName := if resolvePrefixed then name.drop 7 else name
    if isTypeMethod ∧ resolvePrefixed ∧ trimmedName = "" then
      Except.error "runtime panic: index out of range"
    else if isTypeMethod ∧ resolvePrefixed ∧
        (trimmedName.data.getD 0 ' ').toUpper ≠ trimmedName.data.getD 0 ' ' then
      Except.ok none
    else if t.isVariadic then
      Except.error "function method cannot end with spread operator (...string)"
    else if t.outs.length = 0 then Except.error (name ++ " no value returned")
    else
      match checkFunctionOutsLoop name t.outs 0 none none hasIDTag with
      | Except.error e => Except.error e
      | Except.ok (none, _, _) => Except.error (name ++ " does not return usable data")
      | Except.ok (some outNr, errNr, isID) =>
        Except.ok (some { outNr := outNr, errorOutNr := errNr, isID := isID,
                          qlName := formatGoNameToQL trimmedName })

/-- NewSchema (parse.go) initializes MaxDepth to 255. -/
def newSchemaMaxDepth : Nat := 255

end Parse

namespace Enum

/-- The enum value registered for a label.  The source allows any named
int/uint/string kind as the content type; only equality of values is ever
used, so values are modelled as integers. -/
abbrev EnumValue := Int

/-- The enum type entry built by registerEnumCheck: label→value map and
the reverse value→label map (Go maps are modelled as association lists in
iteration order; Go's own iteration order is unspecified). -/
structure EnumEntry where
  typeName : String
  keyValue : List (String × EnumValue)
  valueKey : List (EnumValue × String)
deriving DecidableEq, Repr

/-- The key/value validation loop of registerEnumCheck: an empty label, an
invalid label or a duplicated value cause a registration failure (a panic
in the source, modelled as an error). -/
def registerEnumCheckLoop : List (String × EnumValue) →
    List (String × EnumValue) → List (EnumValue × String) →
    Except String (List (String × EnumValue) × List (EnumValue × String))
  | [], res, valueKeyMap => Except.ok (res, valueKeyMap)
  | (k, v) :: rest, res, valueKeyMap =>
    if k = "" then Except.error "RegisterEnum input map cannot contain empty keys"
    else
      match Parse.validGraphQlName k.data with
      | Except.error _ =>
        Except.error ("RegisterEnum map key must start with an alphabetic character (lower or upper) followed by the same or a \"_\", key given: " ++ k)
      | Except.ok _ =>
        if (valueKeyMap.lookup v).isSome then
          Except.error "RegisterEnum input map cannot have duplicated values"
        else registerEnumCheckLoop rest (res ++ [(k, v)]) (valueKeyMap ++ [(v, k)])

/-- registerEnumCheck from src/unnamed/part_000.  The reflect-level type
checks (input must be a map with string keys and a named int/uint/string
content type) are enforced by the model's types.  A zero-entry map yields
`none`: nothing to register, no failure. -/
def registerEnumCheck (typeName : String) (entries : List (String × EnumValue)) :
    Except String (Option EnumEntry) :=
  if entries.length = 0 then Except.ok none
  else
    match registerEnumCheckLoop entries [] [] with
    | Except.error e => Except.error e
    | Except.ok (kv, vk) =>
      Except.ok (some { typeName := typeName, keyValue := kv, valueKey := vk })

/-- RegisterEnum from src/unnamed/part_000: false when the check produced
nothing (zero entries), true after storing the entry in definedEnums
(threaded explicitly since the source uses a package-level map). -/
def RegisterEnum (definedEnums : List (String × EnumEntry)) (typeName : String)
    (entries : List (String × EnumValue)) :
    Except String (Bool × List (String × EnumEntry)) :=
  match registerEnumCheck typeName entries with
  | Except.error e => Except.error e
  | Except.ok none => Except.ok (false, definedEnums)
  | Except.ok (some e) => Except.ok (true, (typeName, e) :: definedEnums)

end Enum

namespace Res

/-!
Embedding of resolve.go (the tree-walking resolution engine).  This
revision of the library keys `objContents` by the query-facing field name
(a string) and resolves host values through `FieldByName`/`MethodByName`.
Host reflect values are modelled by `GoValue`; a host resolver function is
modelled by the list of values a call returns (the engine never inspects a
function value otherwise).  Float- and time-typed host values are outside
the modelled fragment: their encoder (floatToJson) is not part of the
source tree and no claim involves them.
-/

/-- The valueType constants of parse.go. -/
inductive ValueType where
  | undefined
  | array
  | objRef
  | obj
  | data
  | ptr
  | method
  | enum
  | time
  | interfaceRef
  | iface
deriving DecidableEq, Repr

/-- The fragment of reflect.Kind that the engine inspects. -/
inductive RKind where
  | int
  | int8
  | int16
  | int32
  | int64
  | uint
  | uint8
  | uint16
  | uint32
  | uint64
  | float32
  | float64
  | string
  | bool
  | array
  | slice
  | map
  | ptr
  | struct_
  | invalid
deriving DecidableEq, Repr

/-- The parsed argument Value of this revision (fields as read by
matchInputValue).  Float payloads are opaque bit patterns: they are moved
around but never computed with. -/
structure QueryValue where
  isVar : Bool
  isNull : Bool
  isEnum : Bool
  valType : RKind
  intValue : Int
  floatValue : Nat
  stringValue : String
  booleanValue : Bool
deriving DecidableEq, Repr

/-- referToInput as used by resolve.go: the method argument index, the Go
struct field name and its kind. -/
structure ReferToInput where
  inputIdx : Nat
  goName : String
  kind : RKind
deriving DecidableEq, Repr

mutual
/-- The Obj type descriptor of this revision, with the fields resolve.go
reads.  `objContents` is the query-name-keyed field map. -/
inductive Obj : Type where
  | mk (valueType : ValueType) (typeName : String)
      (objContents : List (String × Obj))
      (structFieldName : String)
      (innerContent : Option Obj)
      (dataValueType : RKind)
      (method : Option ObjMethod)

/-- The objMethod descriptor: resolve.go reads isTypeMethod, ins (only the
isCtx flag is observable — non-ctx inputs are freshly zero-allocated),
inFields, outNr, outType and errorOutNr. -/
inductive ObjMethod : Type where
  | mk (isTypeMethod : Bool)
      (ins : List Bool)
      (inFields : List (String × ReferToInput))
      (outNr : Nat)
      (outType : Obj)
      (errorOutNr : Option Nat)
end

def Obj.valueType : Obj → ValueType
  | .mk vt _ _ _ _ _ _ => vt

def Obj.typeName : Obj → String
  | .mk _ tn _ _ _ _ _ => tn

def Obj.objContents : Obj → List (String × Obj)
  | .mk _ _ oc _ _ _ _ => oc

def Obj.structFieldName : Obj → String
  | .mk _ _ _ sfn _ _ _ => sfn

def Obj.innerContent : Obj → Option Obj
  | .mk _ _ _ _ ic _ _ => ic

def Obj.dataValueType : Obj → RKind
  | .mk _ _ _ _ _ dvt _ => dvt

def Obj.method : Obj → Option ObjMethod
  | .mk _ _ _ _ _ _ m => m

def ObjMethod.isTypeMethod : ObjMethod → Bool
  | .mk itm _ _ _ _ _ => itm

def ObjMethod.ins : ObjMethod → List Bool
  | .mk _ i _ _ _ _ => i

def ObjMethod.inFields : ObjMethod → List (String × ReferToInput)
  | .mk _ _ f _ _ _ => f

def ObjMethod.outNr : ObjMethod → Nat
  | .mk _ _ _ n _ _ => n

def ObjMethod.outType : ObjMethod → Obj
  | .mk _ _ _ _ t _ => t

def ObjMethod.errorOutNr : ObjMethod → Option Nat
  | .mk _ _ _ _ _ e => e

mutual
/-- A host reflect value, as far as the engine observes it. -/
inductive GoValue : Type where
  | vstr (s : String)
  | vint (n : Int)
  | vbool (b : Bool)
  | varr (elems : Option (List GoValue))
  | vptr (inner : Option GoValue)
  | vstruct (fields : List (String × GoValue)) (methods : List (String × List ROut))
  | vfunc (outs : List ROut)
  | invalid

/-- One return slot of a host resolver call: a data value, or an
error-interface slot (`none` = nil error, `some msg` = a non-nil error
whose Error() yields msg; a non-nil value in an error-typed slot always
satisfies the error interface, so the source's "invalid kind of error"
branch is unreachable). -/
inductive ROut : Type where
  | val (v : GoValue)
  | errVal (e : Option String)
end

mutual
/-- The parsed Field of this revision as read by the engine (`alias` is a
Lean keyword, hence `fieldAlias`). -/
inductive Field : Type where
  | mk (name : String) (fieldAlias : String)
      (arguments : List (String × QueryValue))
      (selection : List Selection)

/-- One selection: the source stores a selectionType tag plus one of three
payloads. -/
inductive Selection : Type where
  | field (f : Field)
  | fragmentSpread (name : String)
  | inlineFragment (selection : List Selection)
end

def Field.name : Field → String
  | .mk n _ _ _ => n

def Field.fieldAlias : Field → String
  | .mk _ a _ _ => a

def Field.arguments : Field → List (String × QueryValue)
  | .mk _ _ a _ => a

def Field.selection : Field → List Selection
  | .mk _ _ _ s => s

/-- The fragment payload of an Operator (resolve.go reads
operator.fragment.selection for fragment spreads). -/
structure Fragment where
  selection : List Selection

/-- The Operator of this revision, restricted to the fields resolve.go
reads.  The directives list only matters through its length (ctx.start
appends it to ctx.directvies, which nothing reads afterwards). -/
structure Operator where
  operationType : String
  directives : List Unit
  selection : List Selection
  fragment : Fragment

/-- The Schema fields the engine reads. -/
structure Schema where
  types : List (String × Obj)
  maxDepth : Nat
  rootQuery : Obj
  rootQueryValue : GoValue
  rootMethod : Obj

/-- reflect.Value.FieldByName: struct field lookup; anything else yields
the invalid value. -/
def fieldByName (v : GoValue) (name : String) : GoValue :=
  match v with
  | .vstruct fields _ =>
    match fields.lookup name with
    | some x => x
    | none => .invalid
  | _ => .invalid

/-- reflect.Value.MethodByName: a bound method is a function value. -/
def methodByName (v : GoValue) (name : String) : GoValue :=
  match v with
  | .vstruct _ methods =>
    match methods.lookup name with
    | some outs => .vfunc outs
    | none => .invalid
  | _ => .invalid

/-- reflect.Value.Call on a host function value: yields its return slots.
The argument bundle that the engine fills beforehand is consumed only by
the host function, whose behaviour the model fixes as this output list, so
the bundle's contents are unobservable. -/
def callValue : GoValue → List ROut
  | .vfunc outs => outs
  | _ => []

/-- outs[n] read as a data value. -/
def getOutVal (outs : List ROut) (n : Nat) : GoValue :=
  match outs.get? n with
  | some (.val v) => v
  | _ => .invalid

/-- outs[n] read as the error slot: `none` when the slot is nil (or not an
error slot at all). -/
def getOutErr (outs : List ROut) (n : Nat) : Option String :=
  match outs.get? n with
  | some (.errVal e) => e
  | _ => none

/-- A byte of a Go %q quoted string.  Only the escapes relevant to the
claims are modelled; other printable ASCII maps to itself. -/
def goQuoteChar (c : Char) : String :=
  if c = '"' then "\\\""
  else if c = '\\' then "\\\\"
  else if c = '\n' then "\\n"
  else if c = '\t' then "\\t"
  else if c = '\r' then "\\r"
  else String.singleton c

/-- fmt.Sprintf("%q", s) on the modelled fragment. -/
def goQuote (s : String) : String :=
  "\"" ++ String.join (s.data.map goQuoteChar) ++ "\""

/-- valueToJson from resolve.go: strings are %q-quoted, booleans and the
integer family print literally, pointers unwrap one level or print null,
anything else prints null with an "invalid data type" error (the second
component; the caller discards it). -/
def valueToJson : GoValue → String × Bool
  | .vstr s => (goQuote s, false)
  | .vbool b => (if b then "true" else "false", false)
  | .vint n => (toString n, false)
  | .vptr none => ("null", false)
  | .vptr (some v) => valueToJson v
  | _ => ("null", true)

/-- matchInputValue from resolve.go, reduced to its decision: the Set*
calls write into the freshly allocated argument bundle, which is
unobservable (see callValue).  The error strings are the source's,
including the "expected string" message in the bool branch. -/
def matchInputValue (queryValue : QueryValue) (goFieldKind : RKind) :
    Except String Unit :=
  if queryValue.isVar then
    Except.error "variable function arguments are currently unsupported"
  else if queryValue.isNull then Except.ok ()
  else if queryValue.isEnum then
    Except.error "enum function arguments are currently unsupported"
  else
    match queryValue.valType with
    | .int =>
      match goFieldKind with
      | .int | .int8 | .int16 | .int32 | .int64 => Except.ok ()
      | .uint | .uint8 | .uint16 | .uint32 | .uint64 => Except.ok ()
      | _ => Except.error "function arguments type missmatch expected number"
    | .float64 =>
      if goFieldKind = .float32 ∨ goFieldKind = .float64 then Except.ok ()
      else Except.error "function arguments type missmatch expected float"
    | .string =>
      if goFieldKind = .string then Except.ok ()
      else Except.error "function arguments type missmatch expected string"
    | .bool =>
      if goFieldKind = .bool then Except.ok ()
      else Except.error "function arguments type missmatch expected string"
    | .array =>
      if goFieldKind = .array ∨ goFieldKind = .slice then
        Except.error "function input type not supported"
      else Except.error "function arguments type missmatch expected array"
    | .map => Except.error "function input type not supported"
    | _ => Except.error "undefined function input type"

/-- The argument loop of the method branch of resolveFieldDataValue.
An unknown argument name only records an error and continues; a
matchInputValue failure records the wrapped error and aborts the whole
field (`Except.error` = the source's early `return "null", true`).  The
returned lists are the errors recorded by the loop, in order. -/
def processArgs (qname : String) (inFields : List (String × ReferToInput)) :
    List (String × QueryValue) → List String → Except (List String) (List String)
  | [], errs => Except.ok errs
  | (k, v) :: rest, errs =>
    match inFields.lookup k with
    | none =>
      processArgs qname inFields rest
        (errs ++ ["undefined function " ++ qname ++ " input: " ++ k])
    | some inField =>
      match matchInputValue v inField.kind with
      | Except.error e =>
        Except.error (errs ++ [e ++ ", function: " ++ qname ++ ", property: " ++ k])
      | Except.ok _ => processArgs qname inFields rest errs

theorem sizeOf_method_lt {cs : Obj} {m : ObjMethod} (h : cs.method = some m) :
    sizeOf m < sizeOf cs := by
  cases cs with
  | mk vt tn oc sfn ic dvt mth =>
    simp only [Obj.method] at h
    subst h
    simp
    omega

theorem sizeOf_outType_lt (m : ObjMethod) : sizeOf m.outType < sizeOf m := by
  cases m with
  | mk itm i f n t e =>
    simp only [ObjMethod.outType]
    simp
    omega

theorem sizeOf_innerContent_lt {cs i : Obj} (h : cs.innerContent = some i) :
    sizeOf i < sizeOf cs := by
  cases cs with
  | mk vt tn oc sfn ic dvt mth =>
    simp only [Obj.innerContent] at h
    subst h
    simp
    omega

mutual

/-- resolveSelection from resolve.go: the depth guard yields a literal
"null" (with no braces and no recorded error) at or beyond MaxDepth,
otherwise the selection content is resolved one level deeper and wrapped
in braces.  `fuel` bounds the recursion through fragment spreads and
nested selections (a cyclic fragment makes the source diverge); at fuel 0
the guard value "null" is returned — every theorem below supplies
sufficient fuel explicitly.  All functions return the errors they append
(the source only ever appends to ctx.errors during resolution, never reads
it, so the error list is a write-only log). -/
def resolveSelection (sc : Schema) (frags : List (String × Operator)) (fuel : Nat)
    (selectionSet : List Selection) (struct_ : GoValue) (structType : Obj)
    (dept : Nat) : String × List String :=
  if sc.maxDepth ≤ dept then ("null", [])
  else
    match fuel with
    | 0 => ("null", [])
    | f + 1 =>
      let r := resolveSelectionContent sc frags f selectionSet struct_ structType (dept + 1)
      ("\x7b" ++ r.fst ++ "\x7d", r.snd)
termination_by (fuel, 0, 0, 0)

/-- resolveSelectionContent from resolve.go.  The source's
writtenToRes/comma accumulation is realised as a right-associated comma
join; the two agree because every appended piece is nonempty (a field
piece always starts with its quoted name, and fragment pieces are only
appended when nonempty).  A fragment spread whose target is missing
records an error and contributes nothing; a fragment spread at fuel 0
contributes nothing (unreachable with adequate fuel). -/
def resolveSelectionContent (sc : Schema) (frags : List (String × Operator))
    (fuel : Nat) (selectionSet : List Selection) (struct_ : GoValue)
    (structType : Obj) (dept : Nat) : String × List String :=
  match selectionSet with
  | [] => ("", [])
  | sel :: rest =>
    let head : Option String × List String :=
      match sel with
      | Selection.field f =>
        let r := resolveField sc frags fuel f struct_ structType dept
        if r.fst.snd then (none, r.snd) else (some r.fst.fst, r.snd)
      | Selection.fragmentSpread nm =>
        match frags.lookup nm with
        | none => (none, ["unknown fragment " ++ nm])
        | some op =>
          let r := resolveFragmentSpread sc frags fuel op.fragment.selection
            struct_ structType dept
          (if r.fst.length > 0 then some r.fst else none, r.snd)
      | Selection.inlineFragment isel =>
        let r := resolveSelectionContent sc frags fuel isel struct_ structType dept
        (if r.fst.length > 0 then some r.fst else none, r.snd)
    let tail := resolveSelectionContent sc frags fuel rest struct_ structType dept
    let combined :=
      match head.fst with
      | none => tail.fst
      | some piece => if tail.fst = "" then piece else piece ++ "," ++ tail.fst
    (combined, head.snd ++ tail.snd)
termination_by (fuel, 3, sizeOf selectionSet, 0)

/-- The recursion into a fragment's selection content, split out so the
fuel step stands alone: a spread at fuel 0 contributes nothing and records
nothing (unreachable with adequate fuel; a cyclic fragment makes the
source itself diverge). -/
def resolveFragmentSpread (sc : Schema) (frags : List (String × Operator))
    (fuel : Nat) (fragSelection : List Selection) (struct_ : GoValue)
    (structType : Obj) (dept : Nat) : String × List String :=
  match fuel with
  | 0 => ("", [])
  | f + 1 => resolveSelectionContent sc frags f fragSelection struct_ structType dept
termination_by (fuel, 0, 0, 0)

/-- resolveField from resolve.go: field lookup by query-facing name; an
unknown name records exactly one error and yields ("name":null, true) —
the true flag makes resolveSelectionContent drop the piece.  Type-attached
methods resolve through MethodByName, everything else through FieldByName
(a method-typed entry with a nil descriptor would nil-deref in the source;
the model falls back to FieldByName there, unreachable for well-formed
schemas). -/
def resolveField (sc : Schema) (frags : List (String × Operator)) (fuel : Nat)
    (query : Field) (struct_ : GoValue) (codeStructure : Obj) (dept : Nat) :
    (String × Bool) × List String :=
  let name := if query.fieldAlias.length > 0 then query.fieldAlias else query.name
  match codeStructure.objContents.lookup query.name with
  | none =>
    (("\"" ++ name ++ "\":null", true),
      ["field " ++ query.name ++ " does not exists on " ++ codeStructure.typeName])
  | some structItem =>
    let value :=
      match structItem.valueType, structItem.method with
      | ValueType.method, some m =>
        if m.isTypeMethod then methodByName struct_ structItem.structFieldName
        else fieldByName struct_ structItem.structFieldName
      | _, _ => fieldByName struct_ structItem.structFieldName
    let r := resolveFieldDataValue sc frags fuel query value structItem dept
    (("\"" ++ name ++ "\":" ++ r.fst.fst, r.fst.snd), r.snd)
termination_by (fuel, 2, 0, 0)

/-- resolveFieldDataValue from resolve.go.  Method branch: argument
processing may abort the field; a non-nil error slot appends one error and
the data slot is still resolved.  Array branch: a non-slice or nil value
is null without error; elements resolve independently.  Obj branches
require a selection; objRef resolves through the schema's type map.  Data
branch encodes through valueToJson (its error is discarded, as in the
source).  Ptr unwraps one level or yields null.  Everything else is an
"invalid data type" field error. -/
def resolveFieldDataValue (sc : Schema) (frags : List (String × Operator))
    (fuel : Nat) (query : Field) (value : GoValue) (codeStructure : Obj)
    (dept : Nat) : (String × Bool) × List String :=
  match codeStructure with
  | Obj.mk ValueType.method _ _ _ _ _ (some method) =>
    match processArgs query.name method.inFields query.arguments [] with
    | Except.error errs => (("null", true), errs)
    | Except.ok argErrs =>
      let outs := callValue value
      let errAdd : List String :=
        match method.errorOutNr with
        | none => []
        | some errNr =>
          match getOutErr outs errNr with
          | none => []
          | some msg => [msg]
      let r :=
        have : sizeOf method.outType < sizeOf method := sizeOf_outType_lt method
        resolveFieldDataValue sc frags fuel query (getOutVal outs method.outNr)
          method.outType dept
      (r.fst, argErrs ++ errAdd ++ r.snd)
  | Obj.mk ValueType.method _ _ _ _ _ none =>
    -- unreachable for well-formed descriptors: the source would nil-deref;
    -- same shape as the default branch
    (("null", true), ["field " ++ query.name ++ " has invalid data type"])
  | Obj.mk ValueType.array _ _ _ (some inner) _ _ =>
    match value with
    | GoValue.varr (some elems) =>
      let r := resolveArrayElems sc frags fuel query elems inner dept
      (("[" ++ String.intercalate "," r.fst ++ "]", false), r.snd)
    | _ => (("null", false), [])
  | Obj.mk ValueType.array _ _ _ none _ _ =>
    match value with
    | GoValue.varr (some _) =>
      (("null", true),
        ["field " ++ query.name ++ " does not have an internal type of an array"])
    | _ => (("null", false), [])
  | Obj.mk ValueType.obj tn oc sfn ic dvt mth =>
    if query.selection.length = 0 then
      (("null", true), ["field " ++ query.name ++ " must have a selection"])
    else
      let r := resolveSelection sc frags fuel query.selection value
        (Obj.mk ValueType.obj tn oc sfn ic dvt mth) dept
      ((r.fst, false), r.snd)
  | Obj.mk ValueType.objRef tn _ _ _ _ _ =>
    if query.selection.length = 0 then
      (("null", true), ["field " ++ query.name ++ " must have a selection"])
    else
      match sc.types.lookup tn with
      | none => (("null", true), ["field " ++ query.name ++ " cannot have a selection"])
      | some resolved =>
        let r := resolveSelection sc frags fuel query.selection value resolved dept
        ((r.fst, false), r.snd)
  | Obj.mk ValueType.data _ _ _ _ _ _ =>
    if query.selection.length > 0 then
      (("null", true), ["field " ++ query.name ++ " cannot have a selection"])
    else (((valueToJson value).fst, false), [])
  | Obj.mk ValueType.ptr _ _ _ (some inner) _ _ =>
    match value with
    | GoValue.vptr (some v) =>
      resolveFieldDataValue sc frags fuel query v inner dept
    | _ => (("null", false), [])
  | Obj.mk ValueType.ptr _ _ _ none _ _ =>
    match value with
    | GoValue.vptr (some _) =>
      (("null", true), ["field " ++ query.name ++ " has invalid data type"])
    | _ => (("null", false), [])
  | Obj.mk _ _ _ _ _ _ _ =>
    (("null", true), ["field " ++ query.name ++ " has invalid data type"])
termination_by (fuel, 1, sizeOf codeStructure, 0)

/-- The element loop of the array branch: each element resolves
independently and its own error flag is discarded (`res, _ :=` in the
source), so one element's failure never suppresses its siblings. -/
def resolveArrayElems (sc : Schema) (frags : List (String × Operator)) (fuel : Nat)
    (query : Field) (elems : List GoValue) (inner : Obj) (dept : Nat) :
    List String × List String :=
  match elems with
  | [] => ([], [])
  | e :: rest =>
    let r := resolveFieldDataValue sc frags fuel query e inner dept
    let t := resolveArrayElems sc frags fuel query rest inner dept
    (r.fst.fst :: t.fst, r.snd ++ t.snd)
termination_by (fuel, 1, sizeOf inner, elems.length + 1)

end

/-- ctx.start from resolve.go: query operations resolve against
rootQuery, mutations against rootMethod (both with rootQueryValue, as in
the source), subscriptions and unknown operation types record an error and
yield "\x7b\x7d".  Appending the operator's directives to ctx.directvies has
no observable effect (nothing reads that list) and is omitted. -/
def start (sc : Schema) (frags : List (String × Operator)) (fuel : Nat)
    (operator : Operator) : String × List String :=
  if operator.operationType = "query" then
    resolveSelection sc frags fuel operator.selection sc.rootQueryValue sc.rootQuery 0
  else if operator.operationType = "mutation" then
    resolveSelection sc frags fuel operator.selection sc.rootQueryValue sc.rootMethod 0
  else if operator.operationType = "subscription" then
    ("\x7b\x7d", ["subscription not suppored yet"])
  else ("\x7b\x7d", [operator.operationType ++ " cannot be used as operator"])

/-- The operator-selection switch of Schema.Resolve (resolve.go lines
27-52).  The preceding ParseQueryAndCheckNames step is not part of the
source tree; its outputs (the fragment table and the operator map) are
taken as inputs, modelled as association lists in Go's (unspecified) map
iteration order.  Zero operators yield "\x7b\x7d" with no errors; exactly one
operator is started regardless of the target; with several operators an
empty target fails with "multiple operators without target", and an
unknown nonempty target fails with the operator listing. -/
def resolveWithOperators (sc : Schema) (frags : List (String × Operator))
    (fuel : Nat) (operatorsMap : List (String × Operator))
    (operatorTarget : String) : String × List String :=
  match operatorsMap with
  | [] => ("\x7b\x7d", [])
  | [(_, operator)] => start sc frags fuel operator
  | _ =>
    if operatorTarget = "" then
      ("\x7b\x7d", ["multiple operators without target"])
    else
      match operatorsMap.lookup operatorTarget with
      | some operator => start sc frags fuel operator
      | none =>
        ("\x7b\x7d",
          [operatorTarget ++ " is not a valid operator, available operators: " ++
            String.intercalate ", " (operatorsMap.map Prod.fst)])

end Res

namespace BC

/-- A Go byte slice as BytecodeResolve manipulates it: the backing array
(the allocation) and the current length.  `s[:0]` keeps the backing array
and zeroes the length. -/
structure GoByteSlice where
  store : List Nat
  len : Nat
deriving DecidableEq, Repr

/-- s[:0] -/
def GoByteSlice.truncate (s : GoByteSlice) : GoByteSlice :=
  { store := s.store, len := 0 }

/-- The BytecodeCtx fields touched by the reset at the top of
BytecodeResolve.  The schema and the parser context are opaque references;
reflectValues is the backing array of the value stack. -/
structure BytecodeCtx where
  schema : Nat
  query : Nat
  result : GoByteSlice
  charNr : Nat
  reflectValues : List Nat
  currentReflectValueIdx : Nat
deriving DecidableEq, Repr

/-- The struct-literal reset `*ctx = BytecodeCtx{...}` at the start of
BytecodeResolve (bytecode_resolver.go lines 46-52): schema, query and the
reflectValues array are carried over, result becomes result[:0], and every
unlisted field (charNr) takes its zero value; currentReflectValueIdx is
explicitly zeroed. -/
def bytecodeResolveReset (ctx : BytecodeCtx) : BytecodeCtx :=
  { schema := ctx.schema
    query := ctx.query
    result := ctx.result.truncate
    charNr := 0
    reflectValues := ctx.reflectValues
    currentReflectValueIdx := 0 }

end BC

namespace Ex

/-!
Concrete example fixtures: a schema with one object type T carrying a
string field `bar` (host struct field `Bar`), used by the closed
counterexamples and witnesses below.
-/

def dataObj : Res.Obj :=
  Res.Obj.mk Res.ValueType.data "String" [] "Bar" none Res.RKind.string none

def tObj : Res.Obj :=
  Res.Obj.mk Res.ValueType.obj "T" [("bar", dataObj)] "" none Res.RKind.invalid none

def tVal : Res.GoValue := Res.GoValue.vstruct [("Bar", Res.GoValue.vstr "baz")] []

def sc : Res.Schema :=
  { types := [("T", tObj)], maxDepth := 255, rootQuery := tObj,
    rootQueryValue := tVal, rootMethod := tObj }

def fBar : Res.Field := Res.Field.mk "bar" "" [] []

def fBad : Res.Field := Res.Field.mk "bad" "" [] []

def opQ : Res.Operator :=
  { operationType := "query", directives := [],
    selection := [Res.Selection.field fBar], fragment := ⟨[]⟩ }

/-- A method descriptor returning (string, error) with the error in slot 1. -/
def mOut : Res.Obj :=
  Res.Obj.mk Res.ValueType.data "String" [] "" none Res.RKind.string none

def m1 : Res.ObjMethod := Res.ObjMethod.mk false [] [] 0 mOut (some 1)

def mObj : Res.Obj :=
  Res.Obj.mk Res.ValueType.method "M" [] "F" none Res.RKind.invalid (some m1)

def fM : Res.Field := Res.Field.mk "m" "" [] []

/-- A list-of-string type descriptor. -/
def arrObj : Res.Obj :=
  Res.Obj.mk Res.ValueType.array "" [] "" (some dataObj) Res.RKind.invalid none

end Ex

/-- resolveSelection yields the literal "null" and records no error as soon
as the depth reaches MaxDepth. -/
theorem resolveSelection_maxDepth (sc : Res.Schema) (frags : List (String × Res.Operator))
    (fuel : Nat) (sels : List Res.Selection) (v : Res.GoValue) (t : Res.Obj)
    (dept : Nat) (hdepth : sc.maxDepth ≤ dept) :
    Res.resolveSelection sc frags fuel sels v t dept = ("null", []) := by
  rw [Res.resolveSelection.eq_def]
  simp [hdepth]

/-- C9: the reset at the start of BytecodeResolve restores the result
buffer to length zero while keeping its backing allocation, puts the
reflect-value stack cursor back to its initial position 0, and leaves the
schema reference unchanged. -/
theorem c9_bytecode_reset (ctx : BC.BytecodeCtx) :
    (BC.bytecodeResolveReset ctx).result.len = 0 ∧
    (BC.bytecodeResolveReset ctx).result.store = ctx.result.store ∧
    (BC.bytecodeResolveReset ctx).currentReflectValueIdx = 0 ∧
    (BC.bytecodeResolveReset ctx).schema = ctx.schema :=
  ⟨rfl, rfl, rfl, rfl⟩

/-- C4 counterexample: with two operators and an empty target, Resolve
fails with the fixed message "multiple operators without target"; neither
operator name occurs in that message, so the error does not enumerate the
available operator names as the claim states. -/
theorem c4_counterexample :
    Res.resolveWithOperators Ex.sc [] 1 [("Foo", Ex.opQ), ("Bar", Ex.opQ)] "" =
      ("\x7b\x7d", ["multiple operators without target"]) ∧
    ¬ ("Foo".data <:+: "multiple operators without target".data) ∧
    ¬ ("Bar".data <:+: "multiple operators without target".data) :=
  ⟨rfl, by decide, by decide⟩

/-- C4 (amended): with more than one operator, an empty operator-target
fails with the error "multiple operators without target" (no operation is
silently picked, and the message does not list the operators); the
enumeration of available operator names is produced only when a nonempty
target matches no operator. -/
theorem c4_multiple_operators (sc : Res.Schema) (frags : List (String × Res.Operator))
    (fuel : Nat) (operatorsMap : List (String × Res.Operator)) (target : String)
    (hmulti : 2 ≤ operatorsMap.length) :
    (target = "" →
      Res.resolveWithOperators sc frags fuel operatorsMap target =
        ("\x7b\x7d", ["multiple operators without target"])) ∧
    (target ≠ "" → operatorsMap.lookup target = none →
      Res.resolveWithOperators sc frags fuel operatorsMap target =
        ("\x7b\x7d", [target ++ " is not a valid operator, available operators: " ++
          String.intercalate ", " (operatorsMap.map Prod.fst)])) := by
  match operatorsMap, hmulti with
  | (k1, v1) :: (k2, v2) :: rest, _ =>
    constructor
    · intro h
      subst h
      simp [Res.resolveWithOperators]
    · intro h1 h2
      simp only [Res.resolveWithOperators, h1, h2]
      simp

/-- C4 witness: the amended theorem applied to a concrete two-operator
map with the unknown target "x". -/
theorem c4_multiple_operators_witness :
    Res.resolveWithOperators Ex.sc [] 1 [("Foo", Ex.opQ), ("Bar", Ex.opQ)] "x" =
      ("\x7b\x7d", ["x is not a valid operator, available operators: Foo, Bar"]) :=
  (c4_multiple_operators Ex.sc [] 1 [("Foo", Ex.opQ), ("Bar", Ex.opQ)] "x"
      (by decide)).2 (by decide) rfl

/-- C3: at or beyond the configured MaxDepth (255 in a freshly created
schema) a selection resolves to the literal "null" with no recorded error,
and an object-typed field whose selection starts at the cutoff yields the
value null without a field error — the rest of the response is unaffected
and the response as a whole does not fail. -/
theorem c3_depth_guard (sc : Res.Schema) (frags : List (String × Res.Operator))
    (fuel : Nat) (sels : List Res.Selection) (v : Res.GoValue) (t : Res.Obj)
    (dept : Nat) (hdepth : sc.maxDepth ≤ dept) :
    Res.resolveSelection sc frags fuel sels v t dept = ("null", []) ∧
    (∀ (query : Res.Field) (cs : Res.Obj),
      cs.valueType = Res.ValueType.obj → query.selection ≠ [] →
      Res.resolveFieldDataValue sc frags fuel query v cs dept = (("null", false), [])) ∧
    Parse.newSchemaMaxDepth = 255 := by
  refine ⟨resolveSelection_maxDepth sc frags fuel sels v t dept hdepth, ?_, rfl⟩
  intro query cs hvt hsel
  cases cs with
  | mk vt tn oc sfn ic dvt mth =>
    simp only [Res.Obj.valueType] at hvt
    subst hvt
    have hlen : ¬ query.selection.length = 0 := by
      simpa [List.length_eq_zero] using hsel
    simp only [Res.resolveFieldDataValue]
    simp [hlen, resolveSelection_maxDepth sc frags fuel query.selection v _ dept hdepth]

/-- The array element loop resolves every element independently: the
output is the per-element value list in order, the recorded errors are the
per-element error lists concatenated in order. -/
theorem resolveArrayElems_eq (sc : Res.Schema) (frags : List (String × Res.Operator))
    (fuel : Nat) (query : Res.Field) (elems : List Res.GoValue) (inner : Res.Obj)
    (dept : Nat) :
    Res.resolveArrayElems sc frags fuel query elems inner dept =
      (elems.map fun e => (Res.resolveFieldDataValue sc frags fuel query e inner dept).fst.fst,
       (elems.map fun e => (Res.resolveFieldDataValue sc frags fuel query e inner dept).snd).flatten) := by
  induction elems with
  | nil => simp [Res.resolveArrayElems]
  | cons e rest ih => simp [Res.resolveArrayElems, ih]

/-- C5: for a list-typed field descriptor, a nil list serializes as null
with no error and no aborted field; a non-nil list of N elements produces
a JSON array of exactly the N element encodings in original order, where
each element is resolved independently (its own value and errors do not
depend on its siblings) and an element's error flag is discarded, so it
never prevents sibling elements from being emitted. -/
theorem c5_list_serialization (sc : Res.Schema) (frags : List (String × Res.Operator))
    (fuel : Nat) (query : Res.Field) (tn : String) (oc : List (String × Res.Obj))
    (sfn : String) (inner : Res.Obj) (dvt : Res.RKind) (mth : Option Res.ObjMethod)
    (elems : List Res.GoValue) (dept : Nat) :
    Res.resolveFieldDataValue sc frags fuel query (Res.GoValue.varr none)
        (Res.Obj.mk Res.ValueType.array tn oc sfn (some inner) dvt mth) dept =
      (("null", false), []) ∧
    Res.resolveFieldDataValue sc frags fuel query (Res.GoValue.varr (some elems))
        (Res.Obj.mk Res.ValueType.array tn oc sfn (some inner) dvt mth) dept =
      (("[" ++ String.intercalate ","
          (elems.map fun e =>
            (Res.resolveFieldDataValue sc frags fuel query e inner dept).fst.fst) ++ "]",
        false),
       (elems.map fun e =>
          (Res.resolveFieldDataValue sc frags fuel query e inner dept).snd).flatten) := by
  constructor
  · simp [Res.resolveFieldDataValue]
  · simp [Res.resolveFieldDataValue, resolveArrayElems_eq]

/-- C2: when a resolver method declares an error output and the invoked
host function returns a non-nil error there, the engine appends that
error's message to the error list and still resolves and serializes the
data output — the field's value is whatever the data output resolves to,
not null-by-error. -/
theorem c2_resolver_error_keeps_data (sc : Res.Schema)
    (frags : List (String × Res.Operator)) (fuel : Nat) (query : Res.Field)
    (tn : String) (oc : List (String × Res.Obj)) (sfn : String)
    (ic : Option Res.Obj) (dvt : Res.RKind) (itm : Bool) (ins : List Bool)
    (inFields : List (String × Res.ReferToInput)) (outNr : Nat)
    (outType : Res.Obj) (errNr : Nat) (outs : List Res.ROut) (dept : Nat)
    (msg : String) (argErrs : List String)
    (hargs : Res.processArgs query.name inFields query.arguments [] = Except.ok argErrs)
    (hout : Res.getOutErr outs errNr = some msg) :
    Res.resolveFieldDataValue sc frags fuel query (Res.GoValue.vfunc outs)
        (Res.Obj.mk Res.ValueType.method tn oc sfn ic dvt
          (some (Res.ObjMethod.mk itm ins inFields outNr outType (some errNr)))) dept =
      ((Res.resolveFieldDataValue sc frags fuel query
          (Res.getOutVal outs outNr) outType dept).fst,
        argErrs ++ [msg] ++
          (Res.resolveFieldDataValue sc frags fuel query
            (Res.getOutVal outs outNr) outType dept).snd) := by
  simp [Res.resolveFieldDataValue, Res.ObjMethod.inFields, Res.ObjMethod.errorOutNr,
    Res.ObjMethod.outNr, Res.ObjMethod.outType, Res.callValue, hargs, hout]

/-- C2 witness: a concrete resolver returning ("ok", error "boom"): the
error is recorded and the data output still serializes to "ok". -/
theorem c2_resolver_error_keeps_data_witness :
    Res.resolveFieldDataValue Ex.sc [] 3 Ex.fM
        (Res.GoValue.vfunc [Res.ROut.val (Res.GoValue.vstr "ok"),
          Res.ROut.errVal (some "boom")]) Ex.mObj 1 =
      (("\"ok\"", false), ["boom"]) := by
  have h := c2_resolver_error_keeps_data Ex.sc [] 3 Ex.fM "M" [] "F" none
    Res.RKind.invalid false [] [] 0 Ex.mOut 1
    [Res.ROut.val (Res.GoValue.vstr "ok"), Res.ROut.errVal (some "boom")] 1 "boom" []
    (by simp [Ex.fM, Res.Field.arguments, Res.Field.name, Res.processArgs]) rfl
  rw [show Ex.mObj = Res.Obj.mk Res.ValueType.method "M" [] "F" none Res.RKind.invalid
      (some (Res.ObjMethod.mk false [] [] 0 Ex.mOut (some 1))) from rfl]
  rw [h]
  simp [Res.resolveFieldDataValue, Res.getOutVal, Ex.mOut, Res.valueToJson,
    Res.goQuote, Res.goQuoteChar, Ex.fM, Res.Field.selection]
  decide

/-- The comma accumulation of resolveSelectionContent, as a standalone
join: empty pieces never arise for field selections, so this equals
String.intercalate "," on the emitted pieces. -/
def commaJoin : List String → String
  | [] => ""
  | p :: rest =>
    let t := commaJoin rest
    if t = "" then p else p ++ "," ++ t

/-- On a selection set consisting only of fields, the content is the comma
join of the outputs of exactly those fields whose resolveField reported no
error, and the recorded errors are the per-field error lists concatenated
in order: each field is resolved independently of its siblings. -/
theorem resolveSelectionContent_fields (sc : Res.Schema)
    (frags : List (String × Res.Operator)) (fuel : Nat) (fields : List Res.Field)
    (struct_ : Res.GoValue) (structType : Res.Obj) (dept : Nat) :
    Res.resolveSelectionContent sc frags fuel (fields.map Res.Selection.field)
        struct_ structType dept =
      (commaJoin ((fields.filter (fun f =>
          !(Res.resolveField sc frags fuel f struct_ structType dept).fst.snd)).map
            (fun f => (Res.resolveField sc frags fuel f struct_ structType dept).fst.fst)),
       (fields.map (fun f =>
          (Res.resolveField sc frags fuel f struct_ structType dept).snd)).flatten) := by
  induction fields with
  | nil => simp [Res.resolveSelectionContent, commaJoin]
  | cons f rest ih =>
    by_cases h : (Res.resolveField sc frags fuel f struct_ structType dept).fst.snd
    · simp [Res.resolveSelectionContent, ih, h, commaJoin, List.filter]
    · simp [Res.resolveSelectionContent, ih, h, commaJoin, List.filter]

/-- C1 counterexample: resolving the selection set with the unknown field
`bad` followed by the known field `bar` records exactly the single error
for `bad` and resolves the sibling — but the output contains no entry for
the unknown field at all (neither its name nor any null), contradicting
the claim that the unknown field's value is emitted as null. -/
theorem c1_counterexample :
    Res.resolveSelectionContent Ex.sc [] 2
        [Res.Selection.field Ex.fBad, Res.Selection.field Ex.fBar] Ex.tVal Ex.tObj 1 =
      ("\"bar\":\"baz\"", ["field bad does not exists on T"]) ∧
    ¬ ("bad".data <:+: "\"bar\":\"baz\"".data) ∧
    ¬ ("null".data <:+: "\"bar\":\"baz\"".data) := by
  refine ⟨?_, by decide, by decide⟩
  simp [Res.resolveSelectionContent, Res.resolveField, Res.resolveFieldDataValue,
    Ex.sc, Ex.tObj, Ex.tVal, Ex.fBar, Ex.fBad, Ex.dataObj, Res.fieldByName,
    Res.valueToJson, Res.goQuote, Res.goQuoteChar, Res.Field.name, Res.Field.fieldAlias,
    Res.Field.selection, Res.Obj.objContents, Res.Obj.typeName, Res.Obj.valueType,
    Res.Obj.structFieldName]
  decide

/-- C1 (amended): an unknown field name records exactly one error ("field
N does not exists on T"), its returned piece is flagged so that the
selection content omits it entirely (nothing — not even null — is emitted
for it), and every sibling field still resolves independently: the content
output is the comma join of the non-flagged fields' outputs and the error
list is the concatenation of the per-field error lists. -/
theorem c1_unknown_field (sc : Res.Schema) (frags : List (String × Res.Operator))
    (fuel : Nat) (fields : List Res.Field) (struct_ : Res.GoValue)
    (structType : Res.Obj) (dept : Nat) (f : Res.Field)
    (hunknown : structType.objContents.lookup f.name = none) :
    Res.resolveField sc frags fuel f struct_ structType dept =
      (("\"" ++ (if f.fieldAlias.length > 0 then f.fieldAlias else f.name) ++ "\":null",
        true),
       ["field " ++ f.name ++ " does not exists on " ++ structType.typeName]) ∧
    Res.resolveSelectionContent sc frags fuel (fields.map Res.Selection.field)
        struct_ structType dept =
      (commaJoin ((fields.filter (fun g =>
          !(Res.resolveField sc frags fuel g struct_ structType dept).fst.snd)).map
            (fun g => (Res.resolveField sc frags fuel g struct_ structType dept).fst.fst)),
       (fields.map (fun g =>
          (Res.resolveField sc frags fuel g struct_ structType dept).snd)).flatten) := by
  constructor
  · rw [Res.resolveField.eq_def]
    simp [hunknown]
  · exact resolveSelectionContent_fields sc frags fuel fields struct_ structType dept

/-- C1 witness: the amended theorem applied to the concrete unknown field
`bad` on type T. -/
theorem c1_unknown_field_witness :
    Res.resolveField Ex.sc [] 2 Ex.fBad Ex.tVal Ex.tObj 1 =
      (("\"bad\":null", true), ["field bad does not exists on T"]) := by
  have h := (c1_unknown_field Ex.sc [] 2 [] Ex.tVal Ex.tObj 1 Ex.fBad rfl).1
  rw [h]
  simp [Ex.fBad, Ex.tObj, Res.Field.name, Res.Field.fieldAlias, Res.Obj.typeName]

/-- The output-classification loop succeeds exactly when, together with
what the accumulators already hold, at most one data slot and at most one
error slot occur. -/
theorem checkFunctionOutsLoop_isOk (name : String) (outs : List Parse.OutSlot)
    (i : Nat) (o e : Option Nat) (isID : Bool) :
    (∃ r, Parse.checkFunctionOutsLoop name outs i o e isID = Except.ok r) ↔
      (outs.count Parse.OutSlot.data + (if o.isSome then 1 else 0) ≤ 1 ∧
       outs.count Parse.OutSlot.errorOut + (if e.isSome then 1 else 0) ≤ 1) := by
  induction outs generalizing i o e isID with
  | nil => cases o <;> cases e <;> simp [Parse.checkFunctionOutsLoop]
  | cons s rest ih =>
    cases s with
    | attrIsID =>
      simp [Parse.checkFunctionOutsLoop, ih, List.count_cons]
    | errorOut =>
      by_cases he : e.isSome
      · have hna : ∀ r, ¬ Parse.checkFunctionOutsLoop name (Parse.OutSlot.errorOut :: rest)
            i o e isID = Except.ok r := by
          intro r h
          simp [Parse.checkFunctionOutsLoop, he] at h
        simp only [List.count_cons]
        constructor
        · rintro ⟨r, hr⟩
          exact absurd hr (hna r)
        · rintro ⟨_, h2⟩
          simp [he] at h2
      · simp [Parse.checkFunctionOutsLoop, he, ih, List.count_cons]
    | data =>
      by_cases ho : o.isSome
      · have hna : ∀ r, ¬ Parse.checkFunctionOutsLoop name (Parse.OutSlot.data :: rest)
            i o e isID = Except.ok r := by
          intro r h
          simp [Parse.checkFunctionOutsLoop, ho] at h
        simp only [List.count_cons]
        constructor
        · rintro ⟨r, hr⟩
          exact absurd hr (hna r)
        · rintro ⟨h1, _⟩
          simp [ho] at h1
      · simp [Parse.checkFunctionOutsLoop, ho, ih, List.count_cons]

/-- On success, the loop's returned data-slot index is set exactly when it
was already set or a data slot occurred. -/
theorem checkFunctionOutsLoop_outNr (name : String) (outs : List Parse.OutSlot)
    (i : Nat) (o e : Option Nat) (isID : Bool)
    (r : Option Nat × Option Nat × Bool)
    (h : Parse.checkFunctionOutsLoop name outs i o e isID = Except.ok r) :
    r.fst.isSome ↔ (o.isSome ∨ 1 ≤ outs.count Parse.OutSlot.data) := by
  induction outs generalizing i o e isID with
  | nil =>
    simp [Parse.checkFunctionOutsLoop] at h
    subst h
    simp
  | cons s rest ih =>
    cases s with
    | attrIsID =>
      simp only [Parse.checkFunctionOutsLoop] at h
      rw [ih _ _ _ _ h]
      simp [List.count_cons]
    | errorOut =>
      by_cases he : e.isSome
      · simp [Parse.checkFunctionOutsLoop, he] at h
      · simp only [Parse.checkFunctionOutsLoop, he, Bool.false_eq_true, if_neg,
          Bool.not_eq_true] at h
        rw [ih _ _ _ _ h]
        simp [List.count_cons]
    | data =>
      by_cases ho : o.isSome
      · simp [Parse.checkFunctionOutsLoop, ho] at h
      · simp only [Parse.checkFunctionOutsLoop, ho, Bool.false_eq_true, if_neg,
          Bool.not_eq_true] at h
        rw [ih _ _ _ _ h]
        simp [List.count_cons]

/-- C6: for a non-variadic resolver (non-type-method form), checkFunction
accepts it as a resolver exactly when its return slots contain exactly one
usable data value and at most one error value; zero data slots (including
zero returns altogether), a second data slot or a second error slot all
produce a build-time error. -/
theorem c6_resolver_return_validation (name : String) (t : Parse.FuncType)
    (hasIDTag : Bool) (hvar : t.isVariadic = false) :
    (∃ r, Parse.checkFunction name t false hasIDTag = Except.ok (some r)) ↔
      (t.outs.count Parse.OutSlot.data = 1 ∧
       t.outs.count Parse.OutSlot.errorOut ≤ 1) := by
  simp only [Parse.checkFunction, hvar, false_and, if_false, Bool.false_eq_true,
    ite_false]
  by_cases hlen : t.outs.length = 0
  · have hnil : t.outs = [] := List.length_eq_zero.mp hlen
    rw [hnil]
    simp [hlen]
  · simp only [hlen, if_false]
    rcases hloop : Parse.checkFunctionOutsLoop name t.outs 0 none none hasIDTag
      with e | ⟨o, e', id'⟩
    · constructor
      · rintro ⟨r, hr⟩
        simp [hloop] at hr
      · rintro ⟨hd, he⟩
        have hok := (checkFunctionOutsLoop_isOk name t.outs 0 none none hasIDTag).mpr
          ⟨by simp [hd], by simpa using he⟩
        rcases hok with ⟨r, hr⟩
        rw [hloop] at hr
        cases hr
    · rcases o with _ | outNr
      · constructor
        · rintro ⟨r, hr⟩
          simp [hloop] at hr
        · rintro ⟨hd, _⟩
          have h2 := checkFunctionOutsLoop_outNr name t.outs 0 none none hasIDTag _ hloop
          simp only [Option.isSome_none, Option.isSome_some, Bool.false_eq_true,
            false_or, false_iff, not_le] at h2
          omega
      · constructor
        · intro _
          have h1 := (checkFunctionOutsLoop_isOk name t.outs 0 none none hasIDTag).mp
            ⟨_, hloop⟩
          have h2 := checkFunctionOutsLoop_outNr name t.outs 0 none none hasIDTag _ hloop
          simp only [Option.isSome_none, Option.isSome_some, Bool.false_eq_true,
            if_false, Nat.add_zero, false_or, true_iff] at h1 h2
          exact ⟨by omega, h1.2⟩
        · intro _
          refine ⟨⟨outNr, e', id', Parse.formatGoNameToQL
            (if name.startsWith "Resolve" then name.drop 7 else name)⟩, ?_⟩
          simp [hloop]

/-- C6 witness: (string, error) is accepted; a lone error return is
rejected. -/
theorem c6_resolver_return_validation_witness :
    (∃ r, Parse.checkFunction "Foo"
        { isVariadic := false, outs := [Parse.OutSlot.data, Parse.OutSlot.errorOut] }
        false false = Except.ok (some r)) ∧
    ¬ (∃ r, Parse.checkFunction "Bar"
        { isVariadic := false, outs := [Parse.OutSlot.errorOut] }
        false false = Except.ok (some r)) := by
  constructor
  · exact (c6_resolver_return_validation "Foo" _ false rfl).mpr (by decide)
  · intro h
    have := (c6_resolver_return_validation "Bar" _ false rfl).mp h
    revert this
    decide

/-- An ASCII letter (either case). -/
def isAsciiLetter (c : Char) : Bool := ('A' ≤ c && c ≤ 'Z') || ('a' ≤ c && c ≤ 'z')

/-- An ASCII digit. -/
def isDigitCh (c : Char) : Bool := '0' ≤ c && c ≤ '9'

/-- Spec-side definition, following the spec's words: the identifier
grammar `[A-Za-z_][A-Za-z0-9_]*`. -/
def specNameGrammar : List Char → Bool
  | [] => false
  | c :: rest =>
    (isAsciiLetter c || c = '_') &&
      rest.all (fun d => isAsciiLetter d || isDigitCh d || d = '_')

/-- The grammar validGraphQlName actually accepts: `[A-Za-z][A-Za-z0-9_]*`
(an underscore may not come first). -/
def upperNameGrammar : List Char → Bool
  | [] => false
  | c :: rest =>
    isAsciiLetter c && rest.all (fun d => isAsciiLetter d || isDigitCh d || d = '_')

/-- A character parseName accepts as first: `[a-z_]`. -/
def isLowerNameStart (c : Char) : Bool := ('a' ≤ c && c ≤ 'z') || c = '_'

/-- A character parseName accepts after the first: `[a-z0-9_]`. -/
def isLowerNameCont (c : Char) : Bool := isLowerNameStart c || isDigitCh c

/-- The maximal name-token prefix parseName extracts:
`[a-z_][a-z0-9_]*`, terminating at the first character outside. -/
def lowerNameTake : List Char → List Char
  | [] => []
  | c :: rest => if isLowerNameStart c then c :: rest.takeWhile isLowerNameCont else []

theorem parseNameAllowed_none {c : Char} (h : QP.parseNameAllowed c = none) :
    isLowerNameCont c = false := by
  unfold QP.parseNameAllowed at h
  split at h
  · cases h
  · split at h
    · cases h
    · rename_i h1 h2
      simp only [isLowerNameCont, isLowerNameStart, isDigitCh]
      push_neg at h1 h2
      simp [h1, h2]
      tauto

theorem parseNameAllowed_some {c : Char} {b : Bool}
    (h : QP.parseNameAllowed c = some b) :
    isLowerNameCont c = true ∧ (b = true ↔ isLowerNameStart c = true) := by
  unfold QP.parseNameAllowed at h
  split at h
  · rename_i h1
    cases h
    simp [isLowerNameCont, isLowerNameStart, h1]
  · split at h
    · rename_i h1 h2
      cases h
      simp [isLowerNameCont, isLowerNameStart, isDigitCh, h1, h2]
    · cases h

theorem parseName_fst_data (cs : List Char) (name : String) (hname : name ≠ "") :
    (QP.parseName cs name).fst.data = name.data ++ cs.takeWhile isLowerNameCont := by
  induction cs generalizing name with
  | nil => simp [QP.parseName]
  | cons c rest ih =>
    rw [QP.parseName]
    rcases h : QP.parseNameAllowed c with _ | b
    · have hc := parseNameAllowed_none h
      simp [List.takeWhile, hc]
    · have hc := (parseNameAllowed_some h).1
      have hpush : (name.push c) ≠ "" := by
        cases name with
        | mk l => simp [String.push, String.ext_iff]
      simp only [hname, false_and, if_false]
      rw [ih (name.push c) hpush]
      cases name with
      | mk l => simp [String.push, List.takeWhile, hc]

/-- parseName starting from the empty accumulator extracts exactly the
maximal `[a-z_][a-z0-9_]*` prefix. -/
theorem parseName_lowerNameTake (cs : List Char) :
    (QP.parseName cs "").fst.data = lowerNameTake cs := by
  cases cs with
  | nil => simp [QP.parseName, lowerNameTake]
  | cons c rest =>
    rw [QP.parseName]
    rcases h : QP.parseNameAllowed c with _ | b
    · have hc := parseNameAllowed_none h
      have hs : isLowerNameStart c = false := by
        rcases hstart : isLowerNameStart c
        · rfl
        · simp [isLowerNameCont, hstart] at hc
      simp [lowerNameTake, hs]
    · obtain ⟨hc, hbiff⟩ := parseNameAllowed_some h
      cases b with
      | false =>
        have hs : isLowerNameStart c = false := by
          rcases hstart : isLowerNameStart c
          · rfl
          · have := hbiff.mpr hstart
            cases this
        simp [lowerNameTake, hs]
      | true =>
        have hs : isLowerNameStart c = true := hbiff.mp rfl
        have hpush : ("".push c) ≠ "" := by
          simp [String.push, String.ext_iff]
        simp only [not_true, and_false, if_false]
        rw [parseName_fst_data rest ("".push c) hpush]
        simp [String.push, lowerNameTake, hs]

theorem isAsciiLetter_iff (c : Char) :
    isAsciiLetter c = true ↔ (('A' ≤ c ∧ c ≤ 'Z') ∨ ('a' ≤ c ∧ c ≤ 'z')) := by
  simp [isAsciiLetter]

theorem isDigitCh_iff (c : Char) : isDigitCh c = true ↔ ('0' ≤ c ∧ c ≤ '9') := by
  simp [isDigitCh]

theorem validGraphQlNameLoop_pos (cs : List Char) (i : Nat) (hi : 0 < i) :
    (Parse.validGraphQlNameLoop cs i = Except.ok ()) ↔
      cs.all (fun d => isAsciiLetter d || isDigitCh d || d = '_') = true := by
  induction cs generalizing i with
  | nil => simp [Parse.validGraphQlNameLoop]
  | cons c rest ih =>
    rw [Parse.validGraphQlNameLoop]
    rw [List.all_cons]
    by_cases h1 : 'A' ≤ c ∧ c ≤ 'Z'
    · have hlet : isAsciiLetter c = true := (isAsciiLetter_iff c).mpr (Or.inl h1)
      simp [h1, hlet, ih (i + 1) (by omega)]
    · by_cases h2 : 'a' ≤ c ∧ c ≤ 'z'
      · have hlet : isAsciiLetter c = true := (isAsciiLetter_iff c).mpr (Or.inr h2)
        simp [h1, h2, hlet, ih (i + 1) (by omega)]
      · by_cases h3 : '0' ≤ c ∧ c ≤ '9'
        · have hd : isDigitCh c = true := (isDigitCh_iff c).mpr h3
          simp [h1, h2, h3, hi, hd, ih (i + 1) (by omega)]
        · by_cases h4 : c = '_'
          · simp [h1, h2, h3, h4, hi, ih (i + 1) (by omega)]
          · have hl : isAsciiLetter c = false := by
              rcases hx : isAsciiLetter c
              · rfl
              · rcases (isAsciiLetter_iff c).mp hx with h | h
                · exact absurd h h1
                · exact absurd h h2
            have hdg : isDigitCh c = false := by
              rcases hx : isDigitCh c
              · rfl
              · exact absurd ((isDigitCh_iff c).mp hx) h3
            simp [h1, h2, h3, h4, hl, hdg]

/-- validGraphQlName accepts exactly the strings matching
`[A-Za-z][A-Za-z0-9_]*`: a leading underscore or digit is rejected,
unlike in the spec's `[A-Za-z_][A-Za-z0-9_]*` grammar. -/
theorem validGraphQlName_iff (cs : List Char) :
    (Parse.validGraphQlName cs = Except.ok ()) ↔ upperNameGrammar cs = true := by
  cases cs with
  | nil => simp [Parse.validGraphQlName, upperNameGrammar]
  | cons c rest =>
    have hlen : ¬ ((c :: rest).length = 0) := by simp
    simp only [Parse.validGraphQlName, hlen, if_false]
    rw [Parse.validGraphQlNameLoop]
    by_cases h1 : 'A' ≤ c ∧ c ≤ 'Z'
    · have hlet : isAsciiLetter c = true := (isAsciiLetter_iff c).mpr (Or.inl h1)
      simp [upperNameGrammar, h1, hlet, validGraphQlNameLoop_pos rest 1 (by omega)]
    · by_cases h2 : 'a' ≤ c ∧ c ≤ 'z'
      · have hlet : isAsciiLetter c = true := (isAsciiLetter_iff c).mpr (Or.inr h2)
        simp [upperNameGrammar, h1, h2, hlet, validGraphQlNameLoop_pos rest 1 (by omega)]
      · have hl : isAsciiLetter c = false := by
          rcases hx : isAsciiLetter c
          · rfl
          · rcases (isAsciiLetter_iff c).mp hx with h | h
            · exact absurd h h1
            · exact absurd h h2
        simp [upperNameGrammar, h1, h2, hl]

/-- C7 counterexample: "A" matches the claimed grammar
`[A-Za-z_][A-Za-z0-9_]*` yet the query parser's parseName terminates at
the uppercase letter and extracts the empty name; "_a" matches the claimed
grammar yet validGraphQlName rejects it. -/
theorem c7_counterexample :
    specNameGrammar "A".data = true ∧
    (QP.parseName "A".data "").fst = "" ∧
    specNameGrammar "_a".data = true ∧
    Parse.validGraphQlName "_a".data = Except.error "invalid graphql name" :=
  ⟨by decide, by decide, by decide, rfl⟩

/-- C7 (amended): the two name validators disagree with the claimed
grammar and with each other.  The query parser's parseName extracts
exactly the maximal `[a-z_][a-z0-9_]*` prefix (an uppercase letter
terminates a name token instead of joining it), and validGraphQlName —
used for enum labels and renamed identifiers — accepts exactly
`[A-Za-z][A-Za-z0-9_]*` (a leading underscore is rejected). -/
theorem c7_name_grammars :
    (∀ cs : List Char, (QP.parseName cs "").fst.data = lowerNameTake cs) ∧
    (∀ cs : List Char,
      (Parse.validGraphQlName cs = Except.ok ()) ↔ upperNameGrammar cs = true) :=
  ⟨parseName_lowerNameTake, validGraphQlName_iff⟩

/-- C7 witness: the amended characterizations applied to concrete
strings. -/
theorem c7_name_grammars_witness :
    (QP.parseName "abc_9X".data "").fst.data = lowerNameTake "abc_9X".data ∧
    ((Parse.validGraphQlName "Abc_9".data = Except.ok ()) ↔
      upperNameGrammar "Abc_9".data = true) :=
  ⟨c7_name_grammars.1 "abc_9X".data, c7_name_grammars.2 "Abc_9".data⟩

theorem lookup_append_isSome {α β : Type} [BEq α] (a : α)
    (l1 l2 : List (α × β)) :
    ((l1 ++ l2).lookup a).isSome = ((l1.lookup a).isSome || (l2.lookup a).isSome) := by
  induction l1 with
  | nil => simp [List.lookup]
  | cons p rest ih =>
    rcases p with ⟨x, y⟩
    by_cases h : a == x
    · simp [List.lookup, h]
    · have h' : (a == x) = false := by simpa using h
      simp only [List.cons_append, List.lookup, h']
      exact ih

/-- If some remaining entry's value is already in the value→key map, the
registration loop fails. -/
theorem registerEnumCheckLoop_err_mem (entries : List (String × Enum.EnumValue))
    (res : List (String × Enum.EnumValue)) (vk : List (Enum.EnumValue × String))
    (h : ∃ p ∈ entries, (vk.lookup p.snd).isSome) :
    ∃ e, Enum.registerEnumCheckLoop entries res vk = Except.error e := by
  induction entries generalizing res vk with
  | nil => simp at h
  | cons kv rest ih =>
    rcases kv with ⟨k, v⟩
    rw [Enum.registerEnumCheckLoop]
    by_cases hk : k = ""
    · simp [hk]
    · rcases hval : Parse.validGraphQlName k.data with e | u
      · simp [hk, hval]
      · by_cases hdup : (vk.lookup v).isSome
        · simp [hk, hval, hdup]
        · obtain ⟨p, hp, hvk⟩ := h
          rcases List.mem_cons.mp hp with hph | hpt
          · exfalso
            rw [hph] at hvk
            exact hdup hvk
          · simp only [hk, hval, hdup, Bool.false_eq_true, if_neg, if_false]
            apply ih
            refine ⟨p, hpt, ?_⟩
            rw [lookup_append_isSome]
            simp [hvk]

/-- Entries whose values are not pairwise distinct make the registration
loop fail. -/
theorem registerEnumCheckLoop_err_dup (entries : List (String × Enum.EnumValue))
    (res : List (String × Enum.EnumValue)) (vk : List (Enum.EnumValue × String))
    (h : ¬ (entries.map Prod.snd).Nodup) :
    ∃ e, Enum.registerEnumCheckLoop entries res vk = Except.error e := by
  induction entries generalizing res vk with
  | nil => simp at h
  | cons kv rest ih =>
    rcases kv with ⟨k, v⟩
    rw [Enum.registerEnumCheckLoop]
    by_cases hk : k = ""
    · simp [hk]
    · rcases hval : Parse.validGraphQlName k.data with e | u
      · simp [hk, hval]
      · by_cases hdup : (vk.lookup v).isSome
        · simp [hk, hval, hdup]
        · simp only [hk, hval, hdup, Bool.false_eq_true, if_neg, if_false]
          by_cases hv : v ∈ rest.map Prod.snd
          · obtain ⟨p, hp, hpv⟩ := List.mem_map.mp hv
            apply registerEnumCheckLoop_err_mem
            refine ⟨p, hp, ?_⟩
            rw [lookup_append_isSome]
            have : (([(v, k)] : List (Enum.EnumValue × String)).lookup p.snd).isSome := by
              simp [List.lookup, hpv]
            simp [this]
          · apply ih
            intro hnd
            rw [List.map_cons, List.nodup_cons] at h
            exact h ⟨hv, hnd⟩

/-- Every label accepted by the registration loop is nonempty and passes
validGraphQlName. -/
theorem registerEnumCheckLoop_labels (entries : List (String × Enum.EnumValue))
    (res : List (String × Enum.EnumValue)) (vk : List (Enum.EnumValue × String))
    (kv' : List (String × Enum.EnumValue)) (vk' : List (Enum.EnumValue × String))
    (h : Enum.registerEnumCheckLoop entries res vk = Except.ok (kv', vk'))
    (hres : ∀ p ∈ res, p.fst ≠ "" ∧ Parse.validGraphQlName p.fst.data = Except.ok ()) :
    ∀ p ∈ kv', p.fst ≠ "" ∧ Parse.validGraphQlName p.fst.data = Except.ok () := by
  induction entries generalizing res vk with
  | nil =>
    rw [Enum.registerEnumCheckLoop] at h
    cases h
    exact hres
  | cons kv rest ih =>
    rcases kv with ⟨k, v⟩
    rw [Enum.registerEnumCheckLoop] at h
    by_cases hk : k = ""
    · simp [hk] at h
    · rcases hval : Parse.validGraphQlName k.data with e | u
      · rw [if_neg hk, hval] at h
        cases h
      · rw [if_neg hk, hval] at h
        by_cases hdup : (vk.lookup v).isSome
        · rw [if_pos hdup] at h
          cases h
        · rw [if_neg hdup] at h
          refine ih (res ++ [(k, v)]) (vk ++ [(v, k)]) h ?_
          intro p hp
          rcases List.mem_append.mp hp with hp1 | hp2
          · exact hres p hp1
          · have hpkv : p = (k, v) := by simpa using hp2
            subst hpkv
            cases u
            exact ⟨hk, hval⟩

/-- A string in the validGraphQlName grammar also matches the spec's wider
`[A-Za-z_][A-Za-z0-9_]*` grammar. -/
theorem upperNameGrammar_specNameGrammar (cs : List Char)
    (h : upperNameGrammar cs = true) : specNameGrammar cs = true := by
  cases cs with
  | nil => simp [upperNameGrammar] at h
  | cons c rest =>
    simp only [upperNameGrammar, Bool.and_eq_true] at h
    simp [specNameGrammar, h.1, h.2]

/-- C8: registering an enum with zero entries is accepted as a no-op
(nothing stored, no failure); a mapping whose values are not pairwise
distinct (two distinct labels sharing one value) fails at registration
time; and every label of a successfully built enum entry is non-empty,
passes validGraphQlName, and hence satisfies the identifier grammar. -/
theorem c8_enum_registration (defined : List (String × Enum.EnumEntry))
    (tn : String) (entries : List (String × Enum.EnumValue)) :
    Enum.RegisterEnum defined tn [] = Except.ok (false, defined) ∧
    (¬ (entries.map Prod.snd).Nodup →
      ∃ e, Enum.RegisterEnum defined tn entries = Except.error e) ∧
    (∀ entry, Enum.registerEnumCheck tn entries = Except.ok (some entry) →
      ∀ p ∈ entry.keyValue, p.fst ≠ "" ∧
        Parse.validGraphQlName p.fst.data = Except.ok () ∧
        specNameGrammar p.fst.data = true) := by
  refine ⟨rfl, ?_, ?_⟩
  · intro hdup
    have hne : entries ≠ [] := by
      intro hx
      rw [hx] at hdup
      simp at hdup
    have hlen : ¬ entries.length = 0 := by simpa [List.length_eq_zero] using hne
    obtain ⟨e, he⟩ := registerEnumCheckLoop_err_dup entries [] [] hdup
    refine ⟨e, ?_⟩
    simp [Enum.RegisterEnum, Enum.registerEnumCheck, hlen, he]
  · intro entry hok p hp
    rw [Enum.registerEnumCheck] at hok
    by_cases hlen : entries.length = 0
    · rw [if_pos hlen] at hok
      cases hok
    · rw [if_neg hlen] at hok
      rcases hloop : Enum.registerEnumCheckLoop entries [] [] with e | ⟨kv', vk'⟩
      · rw [hloop] at hok
        cases hok
      · rw [hloop] at hok
        cases hok
        have hl := registerEnumCheckLoop_labels entries [] [] kv' vk' hloop
          (by intro p hp; simp at hp)
        obtain ⟨h1, h2⟩ := hl p hp
        refine ⟨h1, h2, ?_⟩
        exact upperNameGrammar_specNameGrammar _ ((validGraphQlName_iff _).mp h2)

/-- C8 witness: the empty registration is a no-op; a duplicate value across
labels A and B fails; the label of a successful registration satisfies the
grammar. -/
theorem c8_enum_registration_witness :
    Enum.RegisterEnum [] "E" ([] : List (String × Enum.EnumValue)) =
      Except.ok (false, []) ∧
    (∃ e, Enum.RegisterEnum [] "E" [("A", 1), ("B", 1)] = Except.error e) ∧
    ("A" ≠ "" ∧ Parse.validGraphQlName "A".data = Except.ok () ∧
      specNameGrammar "A".data = true) := by
  refine ⟨(c8_enum_registration [] "E" []).1,
    (c8_enum_registration [] "E" [("A", 1), ("B", 1)]).2.1 (by decide), ?_⟩
  have h3 := (c8_enum_registration [] "E" [("A", 1), ("B", 2)]).2.2
    ⟨"E", [("A", 1), ("B", 2)], [(1, "A"), (2, "B")]⟩ rfl ("A", 1) (by decide)
  exact h3

/-- The suffix from the first line terminator on (what a `#` comment skips
up to). -/
def dropToLineTerminator : List Char → List Char
  | [] => []
  | c :: rest => if c = '\n' ∨ c = '\r' then c :: rest else dropToLineTerminator rest

theorem dropToLineTerminator_length (cs : List Char) :
    (dropToLineTerminator cs).length ≤ cs.length := by
  induction cs with
  | nil => simp [dropToLineTerminator]
  | cons c rest ih =>
    rw [dropToLineTerminator]
    split
    · simp
    · simp only [List.length_cons]
      omega

theorem dropToLineTerminator_shape (cs : List Char) :
    dropToLineTerminator cs = [] ∨
    (∃ r, dropToLineTerminator cs = '\n' :: r ∨ dropToLineTerminator cs = '\r' :: r) := by
  induction cs with
  | nil => exact Or.inl rfl
  | cons c rest ih =>
    rw [dropToLineTerminator]
    split
    · rename_i h
      rcases h with h | h
      · exact Or.inr ⟨rest, Or.inl (by rw [h])⟩
      · exact Or.inr ⟨rest, Or.inr (by rw [h])⟩
    · exact ih

mutual
/-- Spec-side definition of "input consisting only of ignored tokens":
whitespace, line terminators and #-comments running to the next line
terminator (the BOM is excluded: on byte input the source's BOM test can
never fire, see isUnicodeBom). -/
def onlyIgnoredTokens : List Char → Bool
  | [] => true
  | c :: rest =>
    if QP.isWhiteSpace c then onlyIgnoredTokens rest
    else if c = '\n' ∨ c = '\r' then onlyIgnoredTokens rest
    else if c = '#' then onlyIgnoredSkipComment rest
    else false

/-- Inside a #-comment: everything up to the next line terminator is part
of the comment. -/
def onlyIgnoredSkipComment : List Char → Bool
  | [] => true
  | c :: rest =>
    if c = '\n' ∨ c = '\r' then onlyIgnoredTokens rest
    else onlyIgnoredSkipComment rest
end

/-- Skipping a comment is the same as resuming at the first line
terminator. -/
theorem skipComment_dropToLineTerminator (cs : List Char) :
    onlyIgnoredSkipComment cs = onlyIgnoredTokens (dropToLineTerminator cs) := by
  induction cs with
  | nil => rfl
  | cons c rest ih =>
    rw [onlyIgnoredSkipComment, dropToLineTerminator]
    by_cases h : c = '\n' ∨ c = '\r'
    · rw [if_pos h, if_pos h]
      rcases h with h | h <;> subst h
      · rw [onlyIgnoredTokens]
        simp [QP.isWhiteSpace]
      · rw [onlyIgnoredTokens]
        simp [QP.isWhiteSpace]
    · rw [if_neg h, if_neg h]
      exact ih

/-- parseComment lands on the first line terminator, except that the CR of
a CRLF pair is consumed. -/
theorem parseComment_eq (cs : List Char) :
    QP.parseComment cs =
      (match dropToLineTerminator cs with
       | '\r' :: '\n' :: r => '\n' :: r
       | other => other) := by
  induction cs with
  | nil => simp [QP.parseComment, dropToLineTerminator]
  | cons c rest ih =>
    by_cases h1 : c = '\n'
    · subst h1
      simp [QP.parseComment, QP.isLineTerminatorAt, dropToLineTerminator]
    · by_cases h2 : c = '\r'
      · subst h2
        cases rest with
        | nil => simp [QP.parseComment, QP.isLineTerminatorAt, dropToLineTerminator]
        | cons c2 r2 =>
          by_cases h3 : c2 = '\n'
          · subst h3
            simp [QP.parseComment, QP.isLineTerminatorAt, dropToLineTerminator]
          · simp [QP.parseComment, QP.isLineTerminatorAt, dropToLineTerminator, h3]
      · rw [QP.parseComment]
        have hlt : QP.isLineTerminatorAt (c :: rest) = (false, c :: rest) := by
          simp [QP.isLineTerminatorAt, h1, h2]
        rw [hlt]
        simp only [Bool.false_eq_true, if_false]
        rw [ih]
        rw [dropToLineTerminator]
        rw [if_neg (by tauto)]

theorem onlyIgnoredTokens_lf (r : List Char) :
    onlyIgnoredTokens ('\n' :: r) = onlyIgnoredTokens r := by
  rw [onlyIgnoredTokens]
  simp [QP.isWhiteSpace]

theorem onlyIgnoredTokens_cr (r : List Char) :
    onlyIgnoredTokens ('\r' :: r) = onlyIgnoredTokens r := by
  rw [onlyIgnoredTokens]
  simp [QP.isWhiteSpace]

/-- The stage machine accepts any all-ignored input while still in the
initial operationType stage, yielding the initial operator unchanged. -/
theorem parseOperatorLoop_ignored :
    ∀ (n : Nat) (cs : List Char), cs.length ≤ n →
      onlyIgnoredTokens cs = true →
      QP.parseOperatorLoop cs "operationType" ⟨"query", ""⟩ =
        Except.ok ⟨"query", ""⟩ := by
  intro n
  induction n with
  | zero =>
    intro cs hlen _
    have hnil : cs = [] := by
      cases cs
      · rfl
      · simp at hlen
    subst hnil
    rw [QP.parseOperatorLoop]
    simp
  | succ n ih =>
    intro cs hlen h
    cases cs with
    | nil =>
      rw [QP.parseOperatorLoop]
      simp
    | cons c rest =>
      rw [QP.parseOperatorLoop]
      by_cases hws : QP.isWhiteSpace c
      · have hign : QP.isIgnoredTokenAt (c :: rest) = (true, c :: rest) := by
          simp [QP.isIgnoredTokenAt, hws]
        rw [onlyIgnoredTokens] at h
        rw [if_pos hws] at h
        simp only [hign, List.drop_succ_cons, List.drop_zero]
        exact ih rest (by simp only [List.length_cons] at hlen; omega) h
      · by_cases hlf : c = '\n'
        · subst hlf
          have hign : QP.isIgnoredTokenAt ('\n' :: rest) = (true, '\n' :: rest) := by
            simp [QP.isIgnoredTokenAt, QP.isWhiteSpace, QP.isUnicodeBom,
              QP.isLineTerminatorAt]
          rw [onlyIgnoredTokens_lf] at h
          simp only [hign, List.drop_succ_cons, List.drop_zero]
          exact ih rest (by simp only [List.length_cons] at hlen; omega) h
        · by_cases hcr : c = '\r'
          · subst hcr
            rw [onlyIgnoredTokens_cr] at h
            cases rest with
            | nil =>
              have hign : QP.isIgnoredTokenAt ['\r'] = (true, ['\r']) := by
                simp [QP.isIgnoredTokenAt, QP.isWhiteSpace, QP.isUnicodeBom,
                  QP.isLineTerminatorAt]
              simp only [hign, List.drop_succ_cons, List.drop_zero]
              exact ih [] (by simp) (by rw [onlyIgnoredTokens])
            | cons c2 r2 =>
              by_cases h2 : c2 = '\n'
              · subst h2
                have hign : QP.isIgnoredTokenAt ('\r' :: '\n' :: r2) =
                    (true, '\n' :: r2) := by
                  simp [QP.isIgnoredTokenAt, QP.isWhiteSpace, QP.isUnicodeBom,
                    QP.isLineTerminatorAt]
                rw [onlyIgnoredTokens_lf] at h
                simp only [hign, List.drop_succ_cons, List.drop_zero]
                exact ih r2 (by simp only [List.length_cons] at hlen; omega) h
              · have hign : QP.isIgnoredTokenAt ('\r' :: c2 :: r2) =
                    (true, '\r' :: c2 :: r2) := by
                  simp [QP.isIgnoredTokenAt, QP.isWhiteSpace, QP.isUnicodeBom,
                    QP.isLineTerminatorAt, h2]
                simp only [hign, List.drop_succ_cons, List.drop_zero]
                exact ih (c2 :: r2) (by simp only [List.length_cons] at hlen ⊢; omega) h
          · by_cases hcm : c = '#'
            · subst hcm
              rw [onlyIgnoredTokens] at h
              rw [if_neg hws, if_neg (by tauto), if_pos rfl] at h
              replace h : onlyIgnoredTokens (dropToLineTerminator rest) = true := by
                rw [← skipComment_dropToLineTerminator]
                exact h
              have hign : QP.isIgnoredTokenAt ('#' :: rest) =
                  (true, QP.parseComment ('#' :: rest)) := by
                simp [QP.isIgnoredTokenAt, QP.isWhiteSpace, QP.isUnicodeBom,
                  QP.isLineTerminatorAt, QP.isCommentAt]
              have hpc : QP.parseComment ('#' :: rest) =
                  (match dropToLineTerminator rest with
                   | '\r' :: '\n' :: r => '\n' :: r
                   | other => other) := by
                rw [QP.parseComment]
                have hlt : QP.isLineTerminatorAt ('#' :: rest) = (false, '#' :: rest) := by
                  simp [QP.isLineTerminatorAt]
                rw [hlt]
                simp only [Bool.false_eq_true, if_false]
                exact parseComment_eq rest
              have hdl := dropToLineTerminator_length rest
              simp only [hign]
              rw [hpc]
              rcases dropToLineTerminator_shape rest with hsh | ⟨r, hsh | hsh⟩
              · rw [hsh] at h ⊢
                simp only [List.drop_nil]
                exact ih [] (by simp) (by rw [onlyIgnoredTokens])
              · rw [hsh] at h hdl ⊢
                rw [onlyIgnoredTokens_lf] at h
                have hm : (match ('\n' :: r : List Char) with
                    | '\r' :: '\n' :: rr => '\n' :: rr
                    | other => other) = '\n' :: r := by simp
                rw [hm]
                simp only [List.drop_succ_cons, List.drop_zero]
                refine ih r ?_ h
                simp only [List.length_cons] at hdl hlen
                omega
              · rw [hsh] at h hdl ⊢
                rw [onlyIgnoredTokens_cr] at h
                cases r with
                | nil =>
                  simp only [List.drop_succ_cons, List.drop_zero]
                  exact ih [] (by simp) (by rw [onlyIgnoredTokens])
                | cons c3 r3 =>
                  by_cases h3 : c3 = '\n'
                  · subst h3
                    rw [onlyIgnoredTokens_lf] at h
                    simp only [List.drop_succ_cons, List.drop_zero]
                    refine ih r3 ?_ h
                    simp only [List.length_cons] at hdl hlen
                    omega
                  · have : (match '\r' :: c3 :: r3 with
                        | '\r' :: '\n' :: r => '\n' :: r
                        | other => other) = '\r' :: c3 :: r3 := by
                      simp [h3]
                    rw [this]
                    simp only [List.drop_succ_cons, List.drop_zero]
                    refine ih (c3 :: r3) ?_ h
                    simp only [List.length_cons] at hdl hlen
                    simp only [List.length_cons]
                    omega
            · rw [onlyIgnoredTokens] at h
              rw [if_neg hws, if_neg (by tauto), if_neg hcm] at h
              cases h

/-- C10: ParseQuery on the empty input — and on any input consisting only
of ignored tokens (whitespace, line terminators, comments) — succeeds and
returns an operator of operation type "query" with an empty name, despite
no selection set being present. -/
theorem c10_parse_empty (input : String)
    (h : onlyIgnoredTokens input.data = true) :
    QP.ParseQuery input = Except.ok ⟨"query", ""⟩ := by
  unfold QP.ParseQuery QP.parseOperator
  exact parseOperatorLoop_ignored input.data.length input.data le_rfl h

/-- C10 witness: the empty string and a whitespace/comment-only input. -/
theorem c10_parse_empty_witness :
    QP.ParseQuery "" = Except.ok ⟨"query", ""⟩ ∧
    QP.ParseQuery " \t#hello\r\n " = Except.ok ⟨"query", ""⟩ :=
  ⟨c10_parse_empty "" (by decide), c10_parse_empty " \t#hello\r\n " (by decide)⟩

/-- C3 witness: a depth-255 cutoff in the concrete example schema (whose
MaxDepth is the NewSchema default 255). -/
theorem c3_depth_guard_witness :
    Res.resolveSelection Ex.sc [] 5 [Res.Selection.field Ex.fBar] Ex.tVal Ex.tObj 255 =
      ("null", []) ∧
    Res.resolveFieldDataValue Ex.sc [] 5 (Res.Field.mk "t" "" [] [Res.Selection.field Ex.fBar])
      Ex.tVal Ex.tObj 255 = (("null", false), []) :=
  have h := c3_depth_guard Ex.sc [] 5 [Res.Selection.field Ex.fBar] Ex.tVal Ex.tObj 255
    (by decide)
  ⟨h.1, h.2.1 (Res.Field.mk "t" "" [] [Res.Selection.field Ex.fBar]) Ex.tObj rfl
    (by simp [Res.Field.selection])⟩

end GoGraphql
